import Mathlib

/-!
# Verification of the Phase 2 competitive-integrity plugin

Shallow embedding of `CTFd/plugins/phase2` (models.py, hooks.py, utils.py,
detection.py, api.py) together with proofs of the specification claims.

Conventions of the embedding:
* Database rows become Lean structures; tables become lists of rows.
* Machine timestamps become `Nat` (first-blood path, microsecond ticks) or
  `ℚ` (submission analytics, fractional seconds), matching how each code
  path compares them.
* Python `None` becomes `Option.none`; Python truthiness is modelled
  explicitly where the code relies on it.
* The HMAC-SHA256 tag of `utils.sign_redis_value` (always invoked with the
  one fixed application secret) is abstracted as a function
  `sign : String → String`; likewise the SHA256 hex digest used by
  `utils.hash_ip` is abstracted as `sha : String → String`.  No theorem
  below depends on any property of these functions beyond determinism.
* Raised Python exceptions become the `.error` branch of `Except`.
-/

namespace Phase2

/-! ## Signed Redis cache layer (utils.py lines 151-305)

A cache entry as seen by `get_signed_cache` after `cache.get`:
the raw payload may be empty/falsy, fail to parse as JSON, parse to a
non-object JSON value, or parse to a JSON object carrying optional string
fields `value` and `signature`.  (Entries written by `set_signed_cache`
are always of the last form, with both fields present.) -/
inductive StoredData where
  /-- A falsy raw payload (empty string): `if not cached_data: return None`. -/
  | emptyRaw : StoredData
  /-- A raw payload that is not valid JSON: `json.loads` raises
  `JSONDecodeError`, which the code catches. -/
  | invalidJson (raw : String) : StoredData
  /-- Valid JSON that is not an object: `data.get` raises `AttributeError`,
  which the `except (JSONDecodeError, KeyError, TypeError)` clause does
  not catch. -/
  | nonObject (raw : String) : StoredData
  /-- A JSON object; absent keys give `None` from `data.get`. -/
  | obj (value : Option String) (signature : Option String) : StoredData
deriving DecidableEq, Repr

/-- The key/value cache (Redis via Flask-Caching), keyed by string. -/
abbrev CacheStore := List (String × StoredData)

def cacheLookup (store : CacheStore) (key : String) : Option StoredData :=
  (List.find? (fun kv => kv.1 == key) store).map (fun kv => kv.2)

def cacheDelete (store : CacheStore) (key : String) : CacheStore :=
  List.filter (fun kv => kv.1 != key) store

def cacheSet (store : CacheStore) (key : String) (d : StoredData) : CacheStore :=
  (key, d) :: cacheDelete store key

/-- Model of `utils.verify_redis_signature`: a falsy (missing or empty) signature is
rejected outright; otherwise the expected tag is recomputed and compared
(`hmac.compare_digest`, i.e. plain equality of the two strings). -/
def verify_redis_signature (sign : String → String) (value : String)
    (signature : Option String) : Bool :=
  match signature with
  | none => false
  | some sig => if sig = "" then false else sign value == sig

/-- Model of `utils.set_signed_cache`: stores `{"value": value, "signature": sign(value)}`.
The TTL argument is outside the model (claims are about pre-expiry reads). -/
def set_signed_cache (sign : String → String) (store : CacheStore)
    (key value : String) : CacheStore :=
  cacheSet store key (.obj (some value) (some (sign value)))

/-- Model of `utils.get_signed_cache` (lines 260-305), including its exception
behaviour.  Returns the read result together with the updated store.
The `.error` branch models an exception escaping the function: when the
payload is a JSON non-object (`data.get` on a list/str/int) or a JSON
object with a truthy signature but no `value` field
(`sign_redis_value(None)` calls `None.encode`), the raised
`AttributeError` is not in the `except (JSONDecodeError, KeyError,
TypeError)` tuple and propagates to the caller. -/
def get_signed_cache (sign : String → String) (store : CacheStore)
    (key : String) : Except String (Option String × CacheStore) :=
  match cacheLookup store key with
  | none => .ok (none, store)
  | some .emptyRaw => .ok (none, store)
  | some (.invalidJson _) => .ok (none, cacheDelete store key)
  | some (.nonObject _) => .error "AttributeError"
  | some (.obj value signature) =>
    match value with
    | some v =>
      if verify_redis_signature sign v signature then
        .ok (some v, store)
      else
        .ok (none, cacheDelete store key)
    | none =>
      -- verify_redis_signature(None, signature): the falsy-signature guard
      -- fires first; otherwise sign_redis_value(None) raises AttributeError.
      match signature with
      | none => .ok (none, cacheDelete store key)
      | some sig =>
        if sig = "" then .ok (none, cacheDelete store key)
        else .error "AttributeError"

/-- Entries on which `get_signed_cache` cannot raise. -/
def StoredData.safeB : StoredData → Bool
  | .emptyRaw => true
  | .invalidJson _ => true
  | .nonObject _ => false
  | .obj (some _) _ => true
  | .obj none none => true
  | .obj none (some sig) => sig == ""

/-- A store on which no `get_signed_cache` read raises. -/
def cacheSafe (store : CacheStore) : Bool :=
  List.all store (fun kv => kv.2.safeB)

/-! ## Prestige score (utils.py lines 308-329) -/

/-- Model of `utils.calculate_prestige_score`.  The argument is the `value` column of
the challenge row (`None` when the column is NULL).  `if not challenge_value
or challenge_value <= 0` replaces `None`, `0` and negatives by `100`;
`int(challenge_value * 1.5)` truncates `3v/2` toward zero, which for the
(positive) effective value equals integer division `3*v / 2`. -/
def calculate_prestige_score (challenge_value : Option Int) : Int :=
  let v : Int :=
    match challenge_value with
    | none => 100
    | some v => if v ≤ 0 then 100 else v
  3 * v / 2

/-! ## First-blood determination engine (hooks.py lines 47-229, models.py 21-90)

`on_solve_inserted` fires inside the solve-insertion transaction.  The
advisory lock (`GET_LOCK`, hooks.py lines 103-116) serializes the hook
bodies of concurrent transactions, so the engine is modelled as a
sequential step function: each invocation sees the solves table visible to
its query and the shared first-blood table and cache. -/

/-- A row of `solves` joined with `submissions` (challenge id, user id,
optional team id, timestamp `sub.date` at microsecond precision). -/
structure Solve where
  id : Nat
  challenge_id : Nat
  user_id : Nat
  team_id : Option Nat
  date : Nat
deriving DecidableEq, Repr

/-- A row of `challenges` as read by the engine (`SELECT value FROM
challenges WHERE id = :id`); `value` is a nullable integer column. -/
structure Chal where
  id : Nat
  value : Option Int
deriving DecidableEq, Repr

/-- A row of `phase2_first_blood_prestige` (models.py lines 21-90). -/
structure FBRecord where
  solve_id : Nat
  challenge_id : Nat
  user_id : Nat
  team_id : Option Nat
  prestige_score : Int
  timestamp : Nat
deriving DecidableEq, Repr

/-- Mutable state the engine touches: the first-blood table and the cache. -/
structure EngineState where
  fb : List FBRecord
  cache : CacheStore
deriving DecidableEq

/-- The WHERE predicate of the step-3 query (hooks.py lines 139-157): a
solve of the same challenge with a strictly earlier timestamp, or an equal
timestamp and a strictly lower user id. -/
def solveBeats (s : Solve) (cid ts uid : Nat) : Bool :=
  s.challenge_id == cid && (s.date < ts || (s.date == ts && s.user_id < uid))

/-- Step-3 query: does any such solve exist in the solves table? -/
def hasEarlierSolve (solves : List Solve) (cid ts uid : Nat) : Bool :=
  solves.any (fun s => solveBeats s cid ts uid)

/-- Step-2 query (hooks.py lines 120-127): an existing first-blood row for
the challenge. -/
def hasFBRecord (fb : List FBRecord) (cid : Nat) : Bool :=
  fb.any (fun r => r.challenge_id == cid)

/-- Model of `challenge[0] if challenge else 100` (hooks.py lines 168-173): the
nullable `value` column when the row exists, else the literal `100`. -/
def challengeValue (challenges : List Chal) (cid : Nat) : Option Int :=
  match challenges.find? (fun ch => ch.id == cid) with
  | some ch => ch.value
  | none => some 100

/-- The Redis key `phase2:first_blood_claimed:{challenge_id}`. -/
def fbRedisKey (cid : Nat) : String :=
  "phase2:first_blood_claimed:" ++ toString cid

/-- Injected-failure configuration for one invocation of the engine, one
flag per fallible statement of hooks.py.  `insertExc = some true` is a
uniqueness/duplicate violation on the first-blood INSERT (handled by the
inner `except`), `some false` any other insert error (re-raised). -/
structure Faults where
  lockExc : Bool
  lockResult : Int
  fbQueryExc : Bool
  earlierQueryExc : Bool
  chalQueryExc : Bool
  insertExc : Option Bool
deriving DecidableEq, Repr

/-- No injected failures; the advisory lock is acquired (`GET_LOCK` = 1). -/
def noFaults : Faults :=
  { lockExc := false, lockResult := 1, fbQueryExc := false,
    earlierQueryExc := false, chalQueryExc := false, insertExc := none }

/-- Steps 2-4 of the hook (hooks.py lines 118-222): the code executed once
the advisory-lock step has fallen through.  Errors carry the state at the
moment of the raise (side effects already applied are kept, since the
raise does not undo work on the caller's connection). -/
def on_solve_locked (f : Faults) (sign : String → String)
    (challenges : List Chal) (solves : List Solve) (st : EngineState)
    (target : Solve) : Except (String × EngineState) EngineState :=
  let redis_key := fbRedisKey target.challenge_id
  -- STEP 2: check for an existing first-blood record
  if f.fbQueryExc then .error ("OperationalError", st)
  else if hasFBRecord st.fb target.challenge_id then
    .ok { st with cache := set_signed_cache sign st.cache redis_key "1" }
  -- STEP 3: timestamp-based authority check
  else if f.earlierQueryExc then .error ("OperationalError", st)
  else if hasEarlierSolve solves target.challenge_id target.date target.user_id then
    .ok { st with cache := set_signed_cache sign st.cache redis_key "1" }
  -- challenge value lookup and prestige calculation
  else if f.chalQueryExc then .error ("OperationalError", st)
  else
    let prestige := calculate_prestige_score (challengeValue challenges target.challenge_id)
    -- STEP 4: insert the record inside the inner try/except
    match f.insertExc with
    | none =>
      let st : EngineState := { st with
        fb := st.fb ++ [{ solve_id := target.id, challenge_id := target.challenge_id,
                          user_id := target.user_id, team_id := target.team_id,
                          prestige_score := prestige, timestamp := target.date }] }
      -- RELEASE_LOCK is wrapped in `try: ... except: pass`; it never raises out
      .ok { st with cache := set_signed_cache sign st.cache redis_key "1" }
    | some true =>
      -- uniqueness violation: logged as benign, cache hint still refreshed
      .ok { st with cache := set_signed_cache sign st.cache redis_key "1" }
    | some false =>
      -- unexpected insert error: re-raised by the inner handler
      .error ("InsertError", st)

/-- The body of the outer `try` of `on_solve_inserted` (hooks.py lines
80-222): read the signed cache hint (its result is bound to `cached_hint`
but never branched on), run the advisory-lock step, then the locked part. -/
def on_solve_body (f : Faults) (sign : String → String)
    (challenges : List Chal) (solves : List Solve) (st : EngineState)
    (target : Solve) : Except (String × EngineState) EngineState :=
  match get_signed_cache sign st.cache (fbRedisKey target.challenge_id) with
  | .error e => .error (e, st)
  | .ok (_cached_hint, cache1) =>
    let st1 : EngineState := { st with cache := cache1 }
    if f.lockExc then
      -- GET_LOCK raised: advisory locks unsupported; continue without lock
      on_solve_locked f sign challenges solves st1 target
    else if f.lockResult != 1 then
      -- lock timeout/error: skip first-blood detection (graceful degradation)
      .ok st1
    else
      on_solve_locked f sign challenges solves st1 target

/-- Model of `hooks.on_solve_inserted` with its outer `except Exception` (lines
224-229): every exception from the body is caught and logged, and the hook
returns normally with whatever state the body had reached.  (The
`FIRST_BLOOD_ENABLED` feature flag, default on, and the `target.date or
utcnow` fallback for a NULL date column are outside the model.) -/
def on_solve_inserted (f : Faults) (sign : String → String)
    (challenges : List Chal) (solves : List Solve) (st : EngineState)
    (target : Solve) : Except String EngineState :=
  match on_solve_body f sign challenges solves st target with
  | .ok s => .ok s
  | .error (_e, s) => .ok s

/-- One fault-free invocation of the hook, as a plain state transformer. -/
def on_solve_run (sign : String → String) (challenges : List Chal)
    (solves : List Solve) (st : EngineState) (target : Solve) : EngineState :=
  match on_solve_inserted noFaults sign challenges solves st target with
  | .ok s => s
  | .error _ => st

/-- The store-only decision of one invocation: what the hook does to the
first-blood table, as a function of the tables alone. -/
def fbDecision (challenges : List Chal) (solves : List Solve)
    (fb : List FBRecord) (target : Solve) : List FBRecord :=
  if hasFBRecord fb target.challenge_id then fb
  else if hasEarlierSolve solves target.challenge_id target.date target.user_id then fb
  else
    fb ++ [{ solve_id := target.id, challenge_id := target.challenge_id,
             user_id := target.user_id, team_id := target.team_id,
             prestige_score := calculate_prestige_score
               (challengeValue challenges target.challenge_id),
             timestamp := target.date }]

/-- A processing schedule for a batch of hook invocations: each step is the
solves table visible to that invocation's queries, paired with the solve
whose insertion fired the hook. -/
def processSched (sign : String → String) (challenges : List Chal)
    (sched : List (List Solve × Solve)) (st : EngineState) : EngineState :=
  sched.foldl (fun s step => on_solve_run sign challenges step.1 s step.2) st

/-- Number of first-blood rows for a given challenge. -/
def fbCount (fb : List FBRecord) (c : Nat) : Nat :=
  (fb.filter (fun r => r.challenge_id == c)).length

/-- The invariant of models.py line 58: at most one
`phase2_first_blood_prestige` row per challenge id. -/
def atMostOnePerChallenge (fb : List FBRecord) : Prop :=
  ∀ c, fbCount fb c ≤ 1

/-! ### Cache-safety lemmas -/

lemma cacheSafe_delete {store : CacheStore} (h : cacheSafe store = true)
    (key : String) : cacheSafe (cacheDelete store key) = true := by
  simp only [cacheSafe, cacheDelete, List.all_eq_true] at *
  intro kv hkv
  exact h kv (List.mem_of_mem_filter hkv)

lemma cacheSafe_set_signed {store : CacheStore} (h : cacheSafe store = true)
    (sign : String → String) (key value : String) :
    cacheSafe (set_signed_cache sign store key value) = true := by
  have hd := cacheSafe_delete h key
  simp only [set_signed_cache, cacheSet, cacheSafe, List.all_cons, Bool.and_eq_true]
  exact ⟨rfl, hd⟩

lemma cacheLookup_safe {store : CacheStore} {key : String} {d : StoredData}
    (h : cacheSafe store = true) (hlook : cacheLookup store key = some d) :
    d.safeB = true := by
  simp only [cacheLookup, Option.map_eq_some'] at hlook
  obtain ⟨kv, hfind, hd⟩ := hlook
  have hmem : kv ∈ store := List.mem_of_find?_eq_some hfind
  simp only [cacheSafe, List.all_eq_true] at h
  simpa [hd] using h kv hmem

/-- On a safe store, `get_signed_cache` never raises, and the store it
leaves behind is safe again. -/
lemma get_signed_cache_safe {sign : String → String} {store : CacheStore}
    {key : String} (h : cacheSafe store = true) :
    ∃ r store', get_signed_cache sign store key = .ok (r, store') ∧
      cacheSafe store' = true := by
  unfold get_signed_cache
  generalize hlook : cacheLookup store key = res
  cases res with
  | none => exact ⟨none, store, rfl, h⟩
  | some d =>
    have hsafe := cacheLookup_safe h hlook
    cases d with
    | emptyRaw => exact ⟨none, store, rfl, h⟩
    | invalidJson raw => exact ⟨none, _, rfl, cacheSafe_delete h key⟩
    | nonObject raw => simp [StoredData.safeB] at hsafe
    | obj value signature =>
      cases value with
      | some v =>
        by_cases hv : verify_redis_signature sign v signature
        · exact ⟨some v, store, by simp [hv], h⟩
        · exact ⟨none, _, by simp [hv], cacheSafe_delete h key⟩
      | none =>
        cases signature with
        | none => exact ⟨none, _, rfl, cacheSafe_delete h key⟩
        | some sig =>
          have hsig : sig = "" := by simpa [StoredData.safeB] using hsafe
          exact ⟨none, _, by simp [hsig], cacheSafe_delete h key⟩

/-! ### Characterizations of one engine invocation -/

/-- The record inserted by step 4 for a given target solve. -/
def fbNewRecord (challenges : List Chal) (target : Solve) : FBRecord :=
  { solve_id := target.id, challenge_id := target.challenge_id,
    user_id := target.user_id, team_id := target.team_id,
    prestige_score := calculate_prestige_score
      (challengeValue challenges target.challenge_id),
    timestamp := target.date }

lemma fbDecision_eq (challenges : List Chal) (solves : List Solve)
    (fb : List FBRecord) (target : Solve) :
    fbDecision challenges solves fb target =
      if hasFBRecord fb target.challenge_id then fb
      else if hasEarlierSolve solves target.challenge_id target.date target.user_id then fb
      else fb ++ [fbNewRecord challenges target] := rfl

/-- The state in which a hook invocation finishes, whether its body
returned normally or raised (the raise keeps the side effects applied so
far and is absorbed by the outer handler). -/
def exceptState : Except (String × EngineState) EngineState → EngineState
  | .ok s => s
  | .error es => es.2

lemma on_solve_inserted_ok (f : Faults) (sign : String → String)
    (challenges : List Chal) (solves : List Solve) (st : EngineState)
    (target : Solve) :
    on_solve_inserted f sign challenges solves st target =
      .ok (exceptState (on_solve_body f sign challenges solves st target)) := by
  unfold on_solve_inserted
  cases on_solve_body f sign challenges solves st target with
  | ok s => rfl
  | error es => rfl

/-- The locked part either leaves the first-blood table unchanged or
appends exactly the new record for its target, the latter only when the
challenge had no record yet. -/
lemma locked_state_fb (f : Faults) (sign : String → String)
    (challenges : List Chal) (solves : List Solve) (st : EngineState)
    (target : Solve) :
    (exceptState (on_solve_locked f sign challenges solves st target)).fb = st.fb ∨
      (hasFBRecord st.fb target.challenge_id = false ∧
       (exceptState (on_solve_locked f sign challenges solves st target)).fb
         = st.fb ++ [fbNewRecord challenges target]) := by
  unfold on_solve_locked
  cases h1 : f.fbQueryExc with
  | true => left; simp [exceptState]
  | false =>
  cases h2 : hasFBRecord st.fb target.challenge_id with
  | true => left; simp [exceptState]
  | false =>
  cases h3 : f.earlierQueryExc with
  | true => left; simp [exceptState]
  | false =>
  cases h4 : hasEarlierSolve solves target.challenge_id target.date target.user_id with
  | true => left; simp [exceptState]
  | false =>
  cases h5 : f.chalQueryExc with
  | true => left; simp [exceptState]
  | false =>
  cases h6 : f.insertExc with
  | none => right; exact ⟨rfl, by simp [exceptState, fbNewRecord]⟩
  | some b =>
    cases b with
    | true => left; simp [exceptState]
    | false => left; simp [exceptState]

/-- Same statement for the whole hook body. -/
lemma body_state_fb (f : Faults) (sign : String → String)
    (challenges : List Chal) (solves : List Solve) (st : EngineState)
    (target : Solve) :
    (exceptState (on_solve_body f sign challenges solves st target)).fb = st.fb ∨
      (hasFBRecord st.fb target.challenge_id = false ∧
       (exceptState (on_solve_body f sign challenges solves st target)).fb
         = st.fb ++ [fbNewRecord challenges target]) := by
  unfold on_solve_body
  cases hget : get_signed_cache sign st.cache (fbRedisKey target.challenge_id) with
  | error e => left; simp [exceptState]
  | ok pr =>
    obtain ⟨hint, cache1⟩ := pr
    have hlk := locked_state_fb f sign challenges solves
      { st with cache := cache1 } target
    cases h1 : f.lockExc with
    | true => simpa using hlk
    | false =>
      cases h2 : f.lockResult != 1 with
      | true => left; simp [exceptState]
      | false => simpa using hlk

/-- Under any fault injection, one hook invocation either leaves the
first-blood table unchanged or appends exactly the new record for its
target, and inserts only when the challenge had no record yet. -/
lemma fb_step_cases {f : Faults} {sign : String → String}
    {challenges : List Chal} {solves : List Solve} {st : EngineState}
    {target : Solve} {s' : EngineState}
    (h : on_solve_inserted f sign challenges solves st target = .ok s') :
    s'.fb = st.fb ∨
      (hasFBRecord st.fb target.challenge_id = false ∧
       s'.fb = st.fb ++ [fbNewRecord challenges target]) := by
  rw [on_solve_inserted_ok] at h
  have hs : s' = exceptState (on_solve_body f sign challenges solves st target) :=
    (Except.ok.injEq _ _ ▸ h).symm
  rw [hs]
  exact body_state_fb f sign challenges solves st target

/-- A fault-free invocation on a safe cache performs exactly the
store-only decision `fbDecision` on the first-blood table, and leaves the
cache safe.  In particular the cache hint read at the top of the hook has
no influence on the decision: hooks.py binds `cached_hint` but never
branches on it ("we ALWAYS verify with database"). -/
lemma on_solve_run_fb (sign : String → String) (challenges : List Chal)
    (solves : List Solve) (st : EngineState) (target : Solve)
    (hsafe : cacheSafe st.cache = true) :
    (on_solve_run sign challenges solves st target).fb
        = fbDecision challenges solves st.fb target ∧
      cacheSafe (on_solve_run sign challenges solves st target).cache = true := by
  obtain ⟨r, store', hget, hsafe'⟩ :=
    @get_signed_cache_safe sign st.cache (fbRedisKey target.challenge_id) hsafe
  unfold on_solve_run
  rw [on_solve_inserted_ok]
  unfold on_solve_body
  rw [hget]
  simp only [noFaults, bne_self_eq_false, Bool.false_eq_true, if_false]
  unfold on_solve_locked fbDecision
  simp only [Bool.false_eq_true, if_false]
  cases h2 : hasFBRecord st.fb target.challenge_id with
  | true =>
    simp only [if_true, exceptState]
    exact ⟨trivial, cacheSafe_set_signed hsafe' sign _ _⟩
  | false =>
    simp only [Bool.false_eq_true, if_false]
    cases h4 : hasEarlierSolve solves target.challenge_id target.date target.user_id with
    | true =>
      simp only [if_true, exceptState]
      exact ⟨trivial, cacheSafe_set_signed hsafe' sign _ _⟩
    | false =>
      simp only [Bool.false_eq_true, if_false, exceptState, fbNewRecord]
      exact ⟨trivial, cacheSafe_set_signed hsafe' sign _ _⟩

/-! ### Counting first-blood rows -/

lemma fbCount_append (fb : List FBRecord) (w : FBRecord) (c : Nat) :
    fbCount (fb ++ [w]) c
      = fbCount fb c + (if w.challenge_id == c then 1 else 0) := by
  simp only [fbCount, List.filter_append]
  cases h : w.challenge_id == c <;> simp [h]

lemma hasFBRecord_eq_false {fb : List FBRecord} {c : Nat} :
    hasFBRecord fb c = false ↔ fbCount fb c = 0 := by
  induction fb with
  | nil => simp [hasFBRecord, fbCount]
  | cons r rest ih =>
    cases h : r.challenge_id == c <;>
      simp [hasFBRecord, fbCount, List.filter_cons, h, List.any_cons] at *

lemma hasFBRecord_eq_true {fb : List FBRecord} {c : Nat} :
    hasFBRecord fb c = true ↔ 1 ≤ fbCount fb c := by
  rcases h : hasFBRecord fb c with _ | _
  · simp only [Bool.false_eq_true, false_iff]
    have := hasFBRecord_eq_false.mp h
    omega
  · simp only [true_iff]
    by_contra hlt
    have h0 : fbCount fb c = 0 := by omega
    have hfalse := hasFBRecord_eq_false.mpr h0
    rw [h] at hfalse
    simp at hfalse

lemma fbDecision_count_le (challenges : List Chal) (solves : List Solve)
    (fb : List FBRecord) (target : Solve) (c : Nat)
    (h : fbCount fb c ≤ 1) :
    fbCount (fbDecision challenges solves fb target) c ≤ 1 := by
  rw [fbDecision_eq]
  cases h2 : hasFBRecord fb target.challenge_id with
  | true => simpa using h
  | false =>
    cases h4 : hasEarlierSolve solves target.challenge_id target.date target.user_id with
    | true => simpa using h
    | false =>
      simp only [Bool.false_eq_true, if_false, fbCount_append]
      cases hc : (fbNewRecord challenges target).challenge_id == c with
      | false => simpa using h
      | true =>
        have hcc : target.challenge_id = c := by
          simpa [fbNewRecord] using hc
        have h0 : fbCount fb c = 0 := by
          rw [← hcc]
          exact hasFBRecord_eq_false.mp h2
        simp [h0]

lemma fbDecision_count_mono (challenges : List Chal) (solves : List Solve)
    (fb : List FBRecord) (target : Solve) (c : Nat) :
    fbCount fb c ≤ fbCount (fbDecision challenges solves fb target) c := by
  rw [fbDecision_eq]
  cases h2 : hasFBRecord fb target.challenge_id with
  | true => simp
  | false =>
    cases h4 : hasEarlierSolve solves target.challenge_id target.date target.user_id with
    | true => simp
    | false => simp [fbCount_append]

/-! ### The tie-break minimum of a set of solves -/

/-- Every nonempty list of solves has an element that no other element
beats under the (timestamp, user id) tie-break order. -/
lemma exists_unbeaten (x : Solve) (xs : List Solve) :
    ∃ m ∈ x :: xs, ∀ s ∈ x :: xs,
      ¬(s.date < m.date ∨ (s.date = m.date ∧ s.user_id < m.user_id)) := by
  induction xs generalizing x with
  | nil =>
    refine ⟨x, List.mem_singleton.mpr rfl, ?_⟩
    intro s hs
    rw [List.mem_singleton] at hs
    subst hs
    omega
  | cons y ys ih =>
    obtain ⟨m, hm, hmin⟩ := ih y
    by_cases hx : x.date < m.date ∨ (x.date = m.date ∧ x.user_id ≤ m.user_id)
    · refine ⟨x, List.mem_cons_self x (y :: ys), ?_⟩
      intro s hs
      rcases List.mem_cons.mp hs with rfl | hs
      · omega
      · have := hmin s hs
        omega
    · refine ⟨m, List.mem_cons_of_mem x hm, ?_⟩
      intro s hs
      rcases List.mem_cons.mp hs with rfl | hs
      · omega
      · exact hmin s hs

/-! ### Processing a batch of hook invocations -/

lemma processSched_cons (sign : String → String) (challenges : List Chal)
    (T : List Solve) (s : Solve) (sched : List (List Solve × Solve))
    (st : EngineState) :
    processSched sign challenges ((T, s) :: sched) st
      = processSched sign challenges sched (on_solve_run sign challenges T st s) := rfl

lemma processSched_append (sign : String → String) (challenges : List Chal)
    (sched₁ sched₂ : List (List Solve × Solve)) (st : EngineState) :
    processSched sign challenges (sched₁ ++ sched₂) st
      = processSched sign challenges sched₂ (processSched sign challenges sched₁ st) := by
  simp [processSched, List.foldl_append]

/-- Generic invariant preservation over a schedule. -/
lemma processSched_preserves {P : EngineState → Prop} (sign : String → String)
    (challenges : List Chal) (sched : List (List Solve × Solve))
    (hstep : ∀ T s, (T, s) ∈ sched → ∀ st, P st →
      P (on_solve_run sign challenges T st s)) :
    ∀ st, P st → P (processSched sign challenges sched st) := by
  induction sched with
  | nil => intro st h; exact h
  | cons step rest ih =>
    intro st h
    obtain ⟨T, s⟩ := step
    rw [processSched_cons]
    exact ih (fun T' s' hmem => hstep T' s' (List.mem_cons_of_mem _ hmem)) _
      (hstep T s (List.mem_cons_self _ _) st h)

/-- The bookkeeping invariant used for the uniqueness arguments: the cache
is safe and the challenge has at most one first-blood row. -/
def schedInv (c : Nat) (st : EngineState) : Prop :=
  cacheSafe st.cache = true ∧ fbCount st.fb c ≤ 1

lemma schedInv_step (sign : String → String) (challenges : List Chal)
    (T : List Solve) (s : Solve) (c : Nat) (st : EngineState)
    (h : schedInv c st) : schedInv c (on_solve_run sign challenges T st s) := by
  obtain ⟨hsafe, hcnt⟩ := h
  obtain ⟨hfb, hsafe'⟩ := on_solve_run_fb sign challenges T st s hsafe
  exact ⟨hsafe', by rw [hfb]; exact fbDecision_count_le challenges T st.fb s c hcnt⟩

lemma schedInv_step_ge (sign : String → String) (challenges : List Chal)
    (T : List Solve) (s : Solve) (c : Nat) (st : EngineState)
    (h : schedInv c st) (hge : 1 ≤ fbCount st.fb c) :
    1 ≤ fbCount (on_solve_run sign challenges T st s).fb c := by
  obtain ⟨hfb, _⟩ := on_solve_run_fb sign challenges T st s h.1
  rw [hfb]
  exact le_trans hge (fbDecision_count_mono challenges T st.fb s c)

/-- If `m` is unbeaten among `S`, the step-3 query over any subtable of `S`
finds nothing earlier than `m`. -/
lemma unbeaten_no_earlier {S T : List Solve} {c : Nat} {m : Solve}
    (hTS : T ⊆ S) (_hc : ∀ s ∈ S, s.challenge_id = c) (_hmc : m.challenge_id = c)
    (hmin : ∀ s ∈ S, ¬(s.date < m.date ∨ (s.date = m.date ∧ s.user_id < m.user_id))) :
    hasEarlierSolve T m.challenge_id m.date m.user_id = false := by
  by_contra h
  rw [Bool.not_eq_false] at h
  simp only [hasEarlierSolve, List.any_eq_true] at h
  obtain ⟨s, hsT, hbeats⟩ := h
  have hsS := hTS hsT
  simp only [solveBeats, Bool.and_eq_true, Bool.or_eq_true, beq_iff_eq,
    decide_eq_true_eq] at hbeats
  exact hmin s hsS hbeats.2

/-- Processing the tie-break minimum of `S` guarantees the challenge has a
first-blood row afterwards. -/
lemma progress_step (sign : String → String) (challenges : List Chal)
    {S : List Solve} {c : Nat} (T : List Solve) (m : Solve) (st : EngineState)
    (hsafe : cacheSafe st.cache = true) (hmT : m ∈ T) (hTS : T ⊆ S)
    (hc : ∀ s ∈ S, s.challenge_id = c)
    (hmin : ∀ s ∈ S, ¬(s.date < m.date ∨ (s.date = m.date ∧ s.user_id < m.user_id))) :
    1 ≤ fbCount (on_solve_run sign challenges T st m).fb c := by
  obtain ⟨hfb, _⟩ := on_solve_run_fb sign challenges T st m hsafe
  rw [hfb, fbDecision_eq]
  have hmc : m.challenge_id = c := hc m (hTS hmT)
  cases h2 : hasFBRecord st.fb m.challenge_id with
  | true =>
    simp only [if_true]
    rw [hmc] at h2
    exact hasFBRecord_eq_true.mp h2
  | false =>
    have hne := unbeaten_no_earlier hTS hc hmc hmin
    simp only [Bool.false_eq_true, if_false, hne, fbCount_append]
    have hck : ((fbNewRecord challenges m).challenge_id == c) = true := by
      simp [fbNewRecord, hmc]
    simp [hck]

/-- Preservation of the at-most-one invariant by a single (possibly
faulty) hook invocation. -/
lemma step_preserves_amo {f : Faults} {sign : String → String}
    {challenges : List Chal} {solves : List Solve} {st s' : EngineState}
    {target : Solve}
    (h : on_solve_inserted f sign challenges solves st target = .ok s')
    (hmo : atMostOnePerChallenge st.fb) : atMostOnePerChallenge s'.fb := by
  rcases fb_step_cases h with hfb | ⟨hno, hfb⟩
  · intro c; rw [hfb]; exact hmo c
  · intro c
    rw [hfb, fbCount_append]
    cases hc : (fbNewRecord challenges target).challenge_id == c with
    | false => simpa using hmo c
    | true =>
      have hcc : target.challenge_id = c := by simpa [fbNewRecord] using hc
      have h0 : fbCount st.fb c = 0 := by
        rw [← hcc]; exact hasFBRecord_eq_false.mp hno
      simp [h0]

/-- Exactly one first-blood row for `c` after processing any schedule
covering a nonempty set `S` of solves of challenge `c`, where each
invocation sees some subtable of `S` containing at least its own solve. -/
lemma processSched_count_one (sign : String → String) (challenges : List Chal)
    (S : List Solve) (c : Nat) (sched : List (List Solve × Solve))
    (st : EngineState)
    (hne : S ≠ [])
    (hc : ∀ s ∈ S, s.challenge_id = c)
    (hview : ∀ p ∈ sched, p.2 ∈ p.1 ∧ p.1 ⊆ S)
    (hcover : ∀ s ∈ S, s ∈ sched.map Prod.snd)
    (hsafe : cacheSafe st.cache = true)
    (h0 : fbCount st.fb c = 0) :
    fbCount (processSched sign challenges sched st).fb c = 1 := by
    -- the tie-break minimum of S
    obtain ⟨x, xs, rfl⟩ := List.exists_cons_of_ne_nil hne
    obtain ⟨m, hmS, hmin⟩ := exists_unbeaten x xs
    -- locate a step that processes m
    obtain ⟨p, hpsched, hpm⟩ := List.mem_map.mp (hcover m hmS)
    have hp : p = (p.1, m) := by rw [← hpm]
    rw [hp] at hpsched
    obtain ⟨l₁, l₂, rfl⟩ := List.append_of_mem hpsched
    -- invariant after the first block
    have hinv₁ : schedInv c (processSched sign challenges l₁ st) :=
      processSched_preserves sign challenges l₁
        (fun T' s' _ st' h' => schedInv_step sign challenges T' s' c st' h')
        st ⟨hsafe, by omega⟩
    set st₁ := processSched sign challenges l₁ st with hst₁
    -- the step processing m creates (or preserves) the row
    have hTmem : (p.1, m) ∈ l₁ ++ (p.1, m) :: l₂ :=
      List.mem_append_right _ (List.mem_cons_self _ _)
    obtain ⟨hmT, hTS⟩ := hview (p.1, m) hTmem
    have hge₂ : 1 ≤ fbCount (on_solve_run sign challenges p.1 st₁ m).fb c :=
      progress_step sign challenges p.1 m st₁ hinv₁.1 hmT hTS hc hmin
    have hinv₂ : schedInv c (on_solve_run sign challenges p.1 st₁ m) :=
      schedInv_step sign challenges p.1 m c st₁ hinv₁
    -- the remaining block preserves both bounds
    have hfinal :
        schedInv c (processSched sign challenges l₂
          (on_solve_run sign challenges p.1 st₁ m)) ∧
        1 ≤ fbCount (processSched sign challenges l₂
          (on_solve_run sign challenges p.1 st₁ m)).fb c := by
      refine processSched_preserves (P := fun st' =>
        schedInv c st' ∧ 1 ≤ fbCount st'.fb c) sign challenges l₂ ?_ _ ⟨hinv₂, hge₂⟩
      intro T' s' _ st' ⟨hI, hG⟩
      exact ⟨schedInv_step sign challenges T' s' c st' hI,
        schedInv_step_ge sign challenges T' s' c st' hI hG⟩
    rw [processSched_append, processSched_cons, ← hst₁]
    have hle := hfinal.1.2
    have hge := hfinal.2
    omega

/-- C1. At most one `FirstBloodPrestige` row exists per challenge:
every hook invocation — under any injected lock/query/insert failure —
preserves the at-most-one-row-per-challenge invariant (first conjunct);
and for any nonempty set `S` of solves of one challenge `c`, processed in
any order and with any interleaving-induced visibility (each invocation
sees some subtable of `S` containing at least its own solve), exactly one
first-blood row for `c` exists afterwards (second conjunct). -/
theorem firstBlood_exactly_one_per_challenge :
    (∀ (f : Faults) (sign : String → String) (challenges : List Chal)
        (solves : List Solve) (st s' : EngineState) (target : Solve),
        on_solve_inserted f sign challenges solves st target = .ok s' →
        atMostOnePerChallenge st.fb → atMostOnePerChallenge s'.fb)
    ∧
    (∀ (sign : String → String) (challenges : List Chal) (S : List Solve)
        (c : Nat) (sched : List (List Solve × Solve)) (st : EngineState),
        S ≠ [] →
        (∀ s ∈ S, s.challenge_id = c) →
        (∀ p ∈ sched, p.2 ∈ p.1 ∧ p.1 ⊆ S) →
        (∀ s ∈ S, s ∈ sched.map Prod.snd) →
        cacheSafe st.cache = true →
        fbCount st.fb c = 0 →
        fbCount (processSched sign challenges sched st).fb c = 1) :=
  ⟨fun _f _sign _challenges _solves _st _s' _target h hmo =>
      step_preserves_amo h hmo,
   fun sign challenges S c sched st hne hc hview hcover hsafe h0 =>
      processSched_count_one sign challenges S c sched st hne hc hview hcover
        hsafe h0⟩

/-- Every first-blood row for challenge `c` is copied from some solve in
`S` that no solve in `S` beats under the tie-break order. -/
def fbSourced (S : List Solve) (c : Nat) (st : EngineState) : Prop :=
  ∀ r ∈ st.fb, r.challenge_id = c →
    (∃ s ∈ S, r.solve_id = s.id ∧ r.user_id = s.user_id ∧ r.timestamp = s.date) ∧
    ∀ s ∈ S, ¬(s.date < r.timestamp ∨ (s.date = r.timestamp ∧ s.user_id < r.user_id))

lemma fbCount_zero_not_mem {fb : List FBRecord} {c : Nat} {r : FBRecord}
    (h0 : fbCount fb c = 0) (hr : r ∈ fb) : r.challenge_id ≠ c := by
  intro hc
  have : r ∈ fb.filter (fun r' => r'.challenge_id == c) :=
    List.mem_filter.mpr ⟨hr, by simp [hc]⟩
  have : 0 < fbCount fb c := by
    simpa [fbCount] using List.length_pos.mpr (List.ne_nil_of_mem this)
  omega

/-- A negative step-3 query over the full table `S` means no solve of `S`
beats the target. -/
lemma no_earlier_unbeaten {S : List Solve} {c : Nat} {t : Solve}
    (hc : ∀ s ∈ S, s.challenge_id = c) (htc : t.challenge_id = c)
    (h : hasEarlierSolve S t.challenge_id t.date t.user_id = false) :
    ∀ s ∈ S, ¬(s.date < t.date ∨ (s.date = t.date ∧ s.user_id < t.user_id)) := by
  intro s hs hcontra
  have htrue : hasEarlierSolve S t.challenge_id t.date t.user_id = true := by
    simp only [hasEarlierSolve, List.any_eq_true]
    refine ⟨s, hs, ?_⟩
    simp only [solveBeats, Bool.and_eq_true, Bool.or_eq_true, beq_iff_eq,
      decide_eq_true_eq]
    exact ⟨by rw [hc s hs, htc], hcontra⟩
  rw [h] at htrue
  simp at htrue

/-- A full-visibility step preserves `fbSourced`. -/
lemma fbSourced_step (sign : String → String) (challenges : List Chal)
    {S : List Solve} {c : Nat} (target : Solve) (st : EngineState)
    (hsafe : cacheSafe st.cache = true) (htS : target ∈ S)
    (hc : ∀ s ∈ S, s.challenge_id = c)
    (h : fbSourced S c st) :
    fbSourced S c (on_solve_run sign challenges S st target) := by
  obtain ⟨hfb, _⟩ := on_solve_run_fb sign challenges S st target hsafe
  intro r hr hrc
  rw [hfb, fbDecision_eq] at hr
  have htc : target.challenge_id = c := hc target htS
  by_cases h2 : hasFBRecord st.fb target.challenge_id = true
  · rw [if_pos h2] at hr
    exact h r hr hrc
  · rw [if_neg h2] at hr
    by_cases h4 : hasEarlierSolve S target.challenge_id target.date target.user_id = true
    · rw [if_pos h4] at hr
      exact h r hr hrc
    · rw [if_neg h4] at hr
      have h4f : hasEarlierSolve S target.challenge_id target.date target.user_id = false :=
        Bool.eq_false_iff.mpr h4
      rcases List.mem_append.mp hr with hold | hnew
      · exact h r hold hrc
      · have hrw : r = fbNewRecord challenges target := List.mem_singleton.mp hnew
        subst hrw
        constructor
        · exact ⟨target, htS, rfl, rfl, rfl⟩
        · simpa [fbNewRecord] using no_earlier_unbeaten hc htc h4f

/-- C2. The first-blood winner is decided by the deterministic
tie-break rule.  For any nonempty set `S` of solves of challenge `c`
processed in any order, each invocation's step-3 query seeing the full
table `S` (the concurrent-batch scenario of the spec, where the advisory
lock serializes the hook bodies of already-inserted solves), exactly one
first-blood row exists afterwards, it is copied from a solve of `S`, and
no solve of `S` has a strictly earlier timestamp, nor an equal timestamp
with a strictly lower user id: earliest timestamp wins, exact ties are
broken by the lowest user id. -/
theorem firstBlood_tiebreak_winner (sign : String → String)
    (challenges : List Chal) (S : List Solve) (c : Nat)
    (sched : List (List Solve × Solve)) (st : EngineState)
    (hne : S ≠ [])
    (hc : ∀ s ∈ S, s.challenge_id = c)
    (hview : ∀ p ∈ sched, p.2 ∈ S ∧ p.1 = S)
    (hcover : ∀ s ∈ S, s ∈ sched.map Prod.snd)
    (hsafe : cacheSafe st.cache = true)
    (h0 : fbCount st.fb c = 0) :
    fbCount (processSched sign challenges sched st).fb c = 1 ∧
    ∀ r ∈ (processSched sign challenges sched st).fb, r.challenge_id = c →
      (∃ s ∈ S, r.solve_id = s.id ∧ r.user_id = s.user_id ∧ r.timestamp = s.date) ∧
      ∀ s ∈ S, ¬(s.date < r.timestamp ∨ (s.date = r.timestamp ∧ s.user_id < r.user_id)) := by
  have hview' : ∀ p ∈ sched, p.2 ∈ p.1 ∧ p.1 ⊆ S := by
    intro p hp
    obtain ⟨h1, h2⟩ := hview p hp
    rw [h2]
    exact ⟨h1, fun a ha => ha⟩
  refine ⟨processSched_count_one sign challenges S c sched st hne hc hview'
      hcover hsafe h0, ?_⟩
  have hP : cacheSafe (processSched sign challenges sched st).cache = true ∧
      fbSourced S c (processSched sign challenges sched st) := by
    refine processSched_preserves (P := fun st' =>
        cacheSafe st'.cache = true ∧ fbSourced S c st') sign challenges sched ?_ st
      ⟨hsafe, fun r hr hrc => absurd hrc (fbCount_zero_not_mem h0 hr)⟩
    intro T s hmem st' hst'
    obtain ⟨hsafe', hsrc'⟩ := hst'
    obtain ⟨hsS, hTS⟩ := hview (T, s) hmem
    subst hTS
    exact ⟨(on_solve_run_fb sign challenges T st' s hsafe').2,
      fbSourced_step sign challenges s st' hsafe' hsS hc hsrc'⟩
  exact hP.2

/-- Whenever the cache-hint read returns without raising — in particular
when the hint is present and its signature verifies — the hook's effect on
the first-blood table is exactly the store-only decision: the hint value
is bound but never branched on. -/
lemma on_solve_run_fb_of_get_ok {sign : String → String}
    {challenges : List Chal} {solves : List Solve} {st : EngineState}
    {target : Solve} {r : Option String} {store' : CacheStore}
    (hget : get_signed_cache sign st.cache (fbRedisKey target.challenge_id)
      = .ok (r, store')) :
    (on_solve_run sign challenges solves st target).fb
      = fbDecision challenges solves st.fb target := by
  unfold on_solve_run
  rw [on_solve_inserted_ok]
  unfold on_solve_body
  rw [hget]
  simp only [noFaults, bne_self_eq_false, Bool.false_eq_true, if_false]
  unfold on_solve_locked fbDecision
  simp only [Bool.false_eq_true, if_false]
  cases h2 : hasFBRecord st.fb target.challenge_id with
  | true => simp [exceptState]
  | false =>
    simp only [Bool.false_eq_true, if_false]
    cases h4 : hasEarlierSolve solves target.challenge_id target.date target.user_id with
    | true => simp [exceptState]
    | false => simp [exceptState, fbNewRecord]

/-! ## Claim C5, C6, C7 theorems -/

/-- C5. The first-blood engine never propagates an exception to its
caller: for every input solve, every cache content, and every injected
internal failure (advisory-lock exception or timeout, step-2/step-3/
challenge-value query failure, insert failure — uniqueness violation or
otherwise), `on_solve_inserted` returns normally (`.ok`); the raised
errors of the body are absorbed by the outer `except Exception` handler,
so the parent solve-insertion transaction is never aborted by the hook. -/
theorem on_solve_inserted_never_raises (f : Faults) (sign : String → String)
    (challenges : List Chal) (solves : List Solve) (st : EngineState)
    (target : Solve) :
    ∃ s', on_solve_inserted f sign challenges solves st target = .ok s' :=
  ⟨_, on_solve_inserted_ok f sign challenges solves st target⟩

/-- C6 (counterexample). The claim "if the cache hint is present and
its signature verifies, the engine exits immediately without querying the
store or inserting a record" is false on the code: with a present, validly
signed hint for challenge 7 and an empty first-blood table, the hook still
runs the store queries and inserts a first-blood record (hooks.py reads
`cached_hint` at line 90 but never branches on it). -/
theorem firstBlood_hint_shortcircuit_counterexample :
    get_signed_cache (fun _ => "sig")
        [(fbRedisKey 7, .obj (some "1") (some "sig"))] (fbRedisKey 7)
      = .ok (some "1", [(fbRedisKey 7, .obj (some "1") (some "sig"))]) ∧
    (on_solve_run (fun _ => "sig") [{ id := 7, value := some 100 }]
        [{ id := 1, challenge_id := 7, user_id := 2, team_id := none, date := 1000 }]
        { fb := [], cache := [(fbRedisKey 7, .obj (some "1") (some "sig"))] }
        { id := 1, challenge_id := 7, user_id := 2, team_id := none, date := 1000 }).fb
      ≠ [] :=
  ⟨rfl, by decide⟩

/-- C6 (amended). The engine reads the cache hint but its control flow
is independent of it: whenever the hint read returns without raising — in
particular when the hint is present and its signature verifies — the
engine still proceeds to the advisory lock and the store queries, and its
effect on the first-blood table is exactly the store-only decision
`fbDecision`; the hint is only refreshed, never trusted as authority. -/
theorem firstBlood_hint_not_shortcircuit (sign : String → String)
    (challenges : List Chal) (solves : List Solve) (st : EngineState)
    (target : Solve) (r : Option String) (store' : CacheStore)
    (hget : get_signed_cache sign st.cache (fbRedisKey target.challenge_id)
      = .ok (r, store')) :
    (on_solve_run sign challenges solves st target).fb
      = fbDecision challenges solves st.fb target :=
  on_solve_run_fb_of_get_ok hget

/-- Witness for the amended C6 theorem at the concrete poisonable state:
the hint is present and verifies, and the engine's table effect is the
store-only decision (which here inserts). -/
theorem firstBlood_hint_not_shortcircuit_witness :
    get_signed_cache (fun _ => "hmac")
        [(fbRedisKey 9, .obj (some "1") (some "hmac"))] (fbRedisKey 9)
      = .ok (some "1", [(fbRedisKey 9, .obj (some "1") (some "hmac"))]) ∧
    (on_solve_run (fun _ => "hmac") [{ id := 9, value := some 200 }]
        [{ id := 3, challenge_id := 9, user_id := 4, team_id := none, date := 50 }]
        { fb := [], cache := [(fbRedisKey 9, .obj (some "1") (some "hmac"))] }
        { id := 3, challenge_id := 9, user_id := 4, team_id := none, date := 50 }).fb
      = fbDecision [{ id := 9, value := some 200 }]
          [{ id := 3, challenge_id := 9, user_id := 4, team_id := none, date := 50 }] []
          { id := 3, challenge_id := 9, user_id := 4, team_id := none, date := 50 } :=
  ⟨rfl,
   firstBlood_hint_not_shortcircuit (fun _ => "hmac") [{ id := 9, value := some 200 }]
     [{ id := 3, challenge_id := 9, user_id := 4, team_id := none, date := 50 }]
     { fb := [], cache := [(fbRedisKey 9, .obj (some "1") (some "hmac"))] }
     { id := 3, challenge_id := 9, user_id := 4, team_id := none, date := 50 }
     (some "1") [(fbRedisKey 9, .obj (some "1") (some "hmac"))] rfl⟩

/-- C7 (counterexample). The claim "the prestige score equals 1.5
times the challenge's point value for every challenge with a positive
fixed value" (`score = 1.5·v`, i.e. `2·score = 3·v`) fails at value 5:
`int(5 * 1.5) = 7`, and `2·7 = 14 ≠ 15 = 3·5`. -/
theorem prestige_not_exact_multiple_counterexample :
    ¬(2 * calculate_prestige_score (some 5) = 3 * 5) := by decide

/-- C7 (amended). The recorded prestige score is `1.5×` the
challenge's point value truncated to an integer: for a positive value `v`
the score is `⌊3v/2⌋` (so exactly `1.5·v` whenever `v` is even), and when
the challenge has no fixed value (`NULL`, zero, or negative) the value
defaults to 100, giving a score of 150; the engine computes the score once
at insert time and stores it in the new record. -/
theorem prestige_score_amended :
    (∀ v : Int, 0 < v →
      2 * calculate_prestige_score (some v) ≤ 3 * v ∧
      3 * v < 2 * calculate_prestige_score (some v) + 2) ∧
    (∀ v : Int, 0 < v → v % 2 = 0 → 2 * calculate_prestige_score (some v) = 3 * v) ∧
    (∀ v : Int, v ≤ 0 → calculate_prestige_score (some v) = 150) ∧
    calculate_prestige_score none = 150 ∧
    (∀ (challenges : List Chal) (solves : List Solve) (fb : List FBRecord)
       (target : Solve) (r : FBRecord),
       r ∈ fbDecision challenges solves fb target → r ∉ fb →
       r.prestige_score = calculate_prestige_score
         (challengeValue challenges target.challenge_id)) := by
  have hpos : ∀ v : Int, 0 < v →
      calculate_prestige_score (some v) = 3 * v / 2 := by
    intro v hv
    simp [calculate_prestige_score, not_le.mpr hv]
  refine ⟨?_, ?_, ?_, by decide, ?_⟩
  · intro v hv
    rw [hpos v hv]
    omega
  · intro v hv hmod
    rw [hpos v hv]
    omega
  · intro v hv
    simp only [calculate_prestige_score, if_pos hv]
    decide
  · intro challenges solves fb target r hr hnot
    rw [fbDecision_eq] at hr
    by_cases h2 : hasFBRecord fb target.challenge_id = true
    · rw [if_pos h2] at hr
      exact absurd hr hnot
    · rw [if_neg h2] at hr
      by_cases h4 : hasEarlierSolve solves target.challenge_id target.date
          target.user_id = true
      · rw [if_pos h4] at hr
        exact absurd hr hnot
      · rw [if_neg h4] at hr
        rcases List.mem_append.mp hr with hold | hnew
        · exact absurd hold hnot
        · rw [List.mem_singleton.mp hnew]
          rfl

/-- Witness for the amended C7 theorem: value 4 gives score 6 (`2·6 ≤ 12 <
2·6+2` and `2·6 = 12 = 3·4`), value −3 gives score 150, and the record
inserted by the store-only decision at a concrete state carries the
computed score. -/
theorem prestige_score_amended_witness :
    (2 * calculate_prestige_score (some 4) ≤ 3 * 4 ∧
      3 * 4 < 2 * calculate_prestige_score (some 4) + 2) ∧
    2 * calculate_prestige_score (some 4) = 3 * 4 ∧
    calculate_prestige_score (some (-3)) = 150 :=
  ⟨prestige_score_amended.1 4 (by decide),
   prestige_score_amended.2.1 4 (by decide) (by decide),
   prestige_score_amended.2.2.1 (-3) (by decide)⟩

/-! ## Witnesses for C1 and C2 -/

/-- Two solves of challenge 7 (user 2 at tick 1000, then user 1 at tick
1001), processed sequentially: the first invocation sees only its own solve,
the second the full table. -/
def oneS : List Solve :=
  [{ id := 1, challenge_id := 7, user_id := 2, team_id := none, date := 1000 },
   { id := 2, challenge_id := 7, user_id := 1, team_id := none, date := 1001 }]

def oneSched : List (List Solve × Solve) :=
  [([{ id := 1, challenge_id := 7, user_id := 2, team_id := none, date := 1000 }],
    { id := 1, challenge_id := 7, user_id := 2, team_id := none, date := 1000 }),
   (oneS, { id := 2, challenge_id := 7, user_id := 1, team_id := none, date := 1001 })]

/-- Witness for C1 at a concrete run: a fault-free invocation on an empty
state preserves the invariant, and the two-solve schedule leaves exactly
one first-blood row for challenge 7. -/
theorem firstBlood_exactly_one_witness :
    (on_solve_inserted noFaults (fun _ => "sig") [{ id := 7, value := some 100 }]
        oneS { fb := [], cache := [] }
        { id := 1, challenge_id := 7, user_id := 2, team_id := none, date := 1000 }
      = .ok { fb := [{ solve_id := 1, challenge_id := 7, user_id := 2,
                       team_id := none, prestige_score := 150, timestamp := 1000 }],
              cache := [(fbRedisKey 7, .obj (some "1") (some "sig"))] } ∧
      atMostOnePerChallenge
        [{ solve_id := 1, challenge_id := 7, user_id := 2, team_id := none,
           prestige_score := 150, timestamp := 1000 }]) ∧
    fbCount (processSched (fun _ => "sig") [{ id := 7, value := some 100 }]
        oneSched { fb := [], cache := [] }).fb 7 = 1 :=
  ⟨⟨rfl,
    firstBlood_exactly_one_per_challenge.1 noFaults (fun _ => "sig")
      [{ id := 7, value := some 100 }] oneS { fb := [], cache := [] } _
      { id := 1, challenge_id := 7, user_id := 2, team_id := none, date := 1000 }
      rfl (fun c => by simp [fbCount])⟩,
   firstBlood_exactly_one_per_challenge.2 (fun _ => "sig")
     [{ id := 7, value := some 100 }] oneS 7 oneSched { fb := [], cache := [] }
     (by decide) (by decide) (by decide) (by decide) (by decide) (by decide)⟩

/-- The spec's tie-break example: four solves of challenge 5 by users
2, 3, 4 and 1, all at the identical timestamp 999, hooks processed in
arrival order with full visibility. -/
def tieS : List Solve :=
  [{ id := 1, challenge_id := 5, user_id := 2, team_id := none, date := 999 },
   { id := 2, challenge_id := 5, user_id := 3, team_id := none, date := 999 },
   { id := 3, challenge_id := 5, user_id := 4, team_id := none, date := 999 },
   { id := 4, challenge_id := 5, user_id := 1, team_id := none, date := 999 }]

def tieSched : List (List Solve × Solve) :=
  [(tieS, { id := 1, challenge_id := 5, user_id := 2, team_id := none, date := 999 }),
   (tieS, { id := 2, challenge_id := 5, user_id := 3, team_id := none, date := 999 }),
   (tieS, { id := 3, challenge_id := 5, user_id := 4, team_id := none, date := 999 }),
   (tieS, { id := 4, challenge_id := 5, user_id := 1, team_id := none, date := 999 })]

/-- Witness for C2 at the spec's example: among users [2,3,4,1] sharing
one identical timestamp, exactly one record exists, it is unbeaten under
the tie-break order, and (checked by evaluation) the winner is user 1 with
prestige 150. -/
theorem firstBlood_tiebreak_witness :
    (fbCount (processSched (fun _ => "sig") [{ id := 5, value := some 100 }]
        tieSched { fb := [], cache := [] }).fb 5 = 1 ∧
     ∀ r ∈ (processSched (fun _ => "sig") [{ id := 5, value := some 100 }]
        tieSched { fb := [], cache := [] }).fb, r.challenge_id = 5 →
       (∃ s ∈ tieS, r.solve_id = s.id ∧ r.user_id = s.user_id ∧ r.timestamp = s.date) ∧
       ∀ s ∈ tieS, ¬(s.date < r.timestamp ∨
         (s.date = r.timestamp ∧ s.user_id < r.user_id))) ∧
    (processSched (fun _ => "sig") [{ id := 5, value := some 100 }]
        tieSched { fb := [], cache := [] }).fb
      = [{ solve_id := 4, challenge_id := 5, user_id := 1, team_id := none,
           prestige_score := 150, timestamp := 999 }] :=
  ⟨firstBlood_tiebreak_winner (fun _ => "sig") [{ id := 5, value := some 100 }]
      tieS 5 tieSched { fb := [], cache := [] }
      (by decide) (by decide) (by decide) (by decide) (by decide) (by decide),
   by decide⟩

/-! ## Claims C8 and C10: signed-cache reads -/

lemma cacheLookup_set (store : CacheStore) (key : String) (d : StoredData) :
    cacheLookup (cacheSet store key d) key = some d := by
  simp [cacheLookup, cacheSet, List.find?]

/-- C10. Signed-cache round trip: for every key and string value,
writing with `set_signed_cache` and reading the same key back with
`get_signed_cache` under the same unchanged signing function (and before
expiry, which is outside the model) returns exactly the original value and
leaves the store untouched.  The only assumption on the MAC is that its
tag is non-empty, which holds for the code's HMAC-SHA256 hex digest
(always 64 characters). -/
theorem signed_cache_roundtrip (sign : String → String) (store : CacheStore)
    (key value : String) (hsig : sign value ≠ "") :
    get_signed_cache sign (set_signed_cache sign store key value) key
      = .ok (some value, set_signed_cache sign store key value) := by
  unfold get_signed_cache set_signed_cache
  rw [cacheLookup_set]
  simp [verify_redis_signature, hsig, set_signed_cache]

/-- Witness for C10 at a concrete signing function, key and value. -/
theorem signed_cache_roundtrip_witness :
    ((fun s => s ++ "#") "v" ≠ "") ∧
    get_signed_cache (fun s => s ++ "#")
        (set_signed_cache (fun s => s ++ "#") [] "k" "v") "k"
      = .ok (some "v", set_signed_cache (fun s => s ++ "#") [] "k" "v") :=
  ⟨by decide, signed_cache_roundtrip (fun s => s ++ "#") [] "k" "v" (by decide)⟩

/-- C8 (code bug). Evaluating `get_signed_cache` at the failing input:
a stored JSON-object payload carrying a signature but no `"value"` field
makes the read raise (`sign_redis_value(None)` calls `None.encode`, and
`AttributeError` is not in the `except (JSONDecodeError, KeyError,
TypeError)` tuple), instead of returning `None` and deleting the entry as
the claim — and the function's own docstring, "Returns: str|None" — says.
The second and third conjuncts evaluate the behaved cases the claim also
covers: a forged signature and an unparsable payload both yield `None`
and delete the entry. -/
theorem get_signed_cache_missing_value_raises :
    get_signed_cache (fun s => s ++ "#") [("k", .obj none (some "abc"))] "k"
      = .error "AttributeError" ∧
    get_signed_cache (fun s => s ++ "#") [("k", .obj (some "1") (some "forged"))] "k"
      = .ok (none, []) ∧
    get_signed_cache (fun s => s ++ "#") [("k", .invalidJson "POISONED_VALUE")] "k"
      = .ok (none, []) :=
  ⟨rfl, rfl, rfl⟩

/-! ## Evidence values and PII sanitization (utils.py lines 26-148)

Evidence dictionaries are association lists from string keys to JSON-ish
values: strings, integer ids, fractional numbers (Python floats, modelled
as `ℚ`), and `None`. -/

inductive EvVal where
  | s (v : String) : EvVal
  | n (v : Nat) : EvVal
  | q (v : ℚ) : EvVal
  | null : EvVal
deriving DecidableEq, Repr

/-- Python truthiness of an evidence value. -/
def EvVal.truthy : EvVal → Bool
  | .s v => v != ""
  | .n v => v != 0
  | .q v => v != 0
  | .null => false

/-- The string content of a string value (the sanitizer's hash/generalize
branches are only ever reached with string-valued fields in the evidence
the detection passes build). -/
def EvVal.pyStr : EvVal → String
  | .s v => v
  | _ => ""

/-- Python's `str.lower()` (character-wise, matching the ASCII use here);
modelled over the character list so that it evaluates by `decide`. -/
def strLower (x : String) : String := ⟨x.toList.map Char.toLower⟩

/-- Tests that `needle` is a leading segment of the second list. -/
def charsLead : List Char → List Char → Bool
  | [], _ => true
  | _ :: _, [] => false
  | a :: as, b :: bs => a == b && charsLead as bs

/-- Contiguous-substring test on character lists. -/
def charsSub (needle : List Char) : List Char → Bool
  | [] => needle.isEmpty
  | h :: t => charsLead needle (h :: t) || charsSub needle t

/-- Python's `needle in haystack` on strings. -/
def pyIn (needle haystack : String) : Bool :=
  charsSub needle.toList haystack.toList

/-- Python's `s.endswith(suffix)`. -/
def strEndsWith (s suffix : String) : Bool :=
  charsLead suffix.toList.reverse s.toList.reverse

/-- Model of `utils.hash_ip`: falsy input gives `None`, otherwise the first 16
characters of the SHA256 hex digest (`sha` abstracts the digest). -/
def hash_ip (sha : String → String) (ip_address : String) : Option String :=
  if ip_address == "" then none else some ((sha ip_address).take 16)

/-- Model of `utils.generalize_user_agent`: browser family and OS family only. -/
def generalize_user_agent (user_agent : String) : String :=
  if user_agent == "" then "Unknown"
  else
    let ua := strLower user_agent
    let browser :=
      if pyIn "chrome" ua && !pyIn "edg" ua then "Chrome"
      else if pyIn "firefox" ua then "Firefox"
      else if pyIn "safari" ua && !pyIn "chrome" ua then "Safari"
      else if pyIn "edg" ua then "Edge"
      else if pyIn "opera" ua || pyIn "opr" ua then "Opera"
      else if pyIn "msie" ua || pyIn "trident" ua then "Internet Explorer"
      else "Unknown Browser"
    let os_family :=
      if pyIn "windows" ua then "Windows"
      else if pyIn "mac" ua && !pyIn "iphone" ua && !pyIn "ipad" ua then "macOS"
      else if pyIn "linux" ua && !pyIn "android" ua then "Linux"
      else if pyIn "android" ua then "Android"
      else if pyIn "iphone" ua || pyIn "ipad" ua then "iOS"
      else "Unknown OS"
    browser ++ " on " ++ os_family

/-- Python-dict assignment on an association list: overwrite in place if
the key exists (keeping its position), else append. -/
def dictSet : List (String × EvVal) → String → EvVal → List (String × EvVal)
  | [], k, v => [(k, v)]
  | (k', v') :: rest, k, v =>
    if k' == k then (k', v) :: rest else (k', v') :: dictSet rest k v

/-- The loop body of `utils.sanitize_evidence` for one `(key, value)`
entry: hash IPs, generalize user-agents, redact submission text, keep
everything else. -/
def sanitizeStep (sha : String → String)
    (sanitized : List (String × EvVal)) (kv : String × EvVal) :
    List (String × EvVal) :=
  let key := kv.1
  let value := kv.2
  if pyIn "ip" (strLower key) && value.truthy &&
      !(key == "ip_hash" || key == "ip_1_hash" || key == "ip_2_hash") then
    let hash_key := if strEndsWith key "_hash" then key else key ++ "_hash"
    dictSet sanitized hash_key
      (match hash_ip sha value.pyStr with
       | some h => .s h
       | none => .null)
  else if pyIn "user_agent" (strLower key) && value.truthy then
    dictSet sanitized (key.replace "user_agent" "browser_os")
      (.s (generalize_user_agent value.pyStr))
  else if pyIn "submission" (strLower key) && pyIn "text" (strLower key) then
    dictSet sanitized key (.s "[REDACTED]")
  else
    dictSet sanitized key value

/-- Model of `utils.sanitize_evidence` (lines 106-148). -/
def sanitize_evidence (sha : String → String)
    (evidence : List (String × EvVal)) : List (String × EvVal) :=
  evidence.foldl (sanitizeStep sha) []

/-! ## Confidence scoring and similarity (config.py, utils.py 400-492) -/

/-- config.py pattern-detection weights (0.4, 0.3, 0.2, 0.1). -/
def WEIGHT_SAME_IP : ℚ := 2 / 5
def WEIGHT_DUPLICATE_WRONG : ℚ := 3 / 10
def WEIGHT_SIMILAR_UA : ℚ := 1 / 5
def WEIGHT_TEMPORAL_PROXIMITY : ℚ := 1 / 10
/-- config.py `SUSPICION_THRESHOLD` default 0.75. -/
def SUSPICION_THRESHOLD : ℚ := 3 / 4
/-- config.py `TEMPORAL_WINDOW_SECONDS` = 60. -/
def TEMPORAL_WINDOW_SECONDS : ℚ := 60
/-- config.py `UA_SIMILARITY_THRESHOLD` = 0.95. -/
def UA_SIMILARITY_THRESHOLD : ℚ := 19 / 20

/-- Model of `utils.calculate_suspicion_confidence`: fixed weight per detected
pattern, capped at 1.0. -/
def calculate_suspicion_confidence (patterns : List String) : ℚ :=
  let score : ℚ := 0
  let score := if patterns.contains "same_ip" then score + WEIGHT_SAME_IP else score
  let score := if patterns.contains "duplicate_wrong" then score + WEIGHT_DUPLICATE_WRONG else score
  let score := if patterns.contains "similar_ua" then score + WEIGHT_SIMILAR_UA else score
  let score := if patterns.contains "temporal_proximity" then score + WEIGHT_TEMPORAL_PROXIMITY else score
  min score 1

/-- Model of `utils.determine_risk_level`. -/
def determine_risk_level (confidence : ℚ) : String :=
  if confidence ≥ 3 / 4 then "HIGH"
  else if confidence ≥ 1 / 2 then "MEDIUM"
  else "LOW"

/-- One DP row of the Levenshtein computation (utils.py 478-485):
`p0` walks `previous_row[j-1]`, the tail head is `previous_row[j]`, and
`left` is `current_row[j-1]`. -/
def levRowAux (c2 : Char) : List Char → List Nat → Nat → List Nat
  | [], _, _ => []
  | _ :: _, [], _ => []
  | _ :: _, [_], _ => []
  | a :: as, p0 :: p1 :: ps, left =>
    let change := p0 + (if a == c2 then 0 else 1)
    let cost := min (min (p1 + 1) (left + 1)) change
    cost :: levRowAux c2 as (p1 :: ps) cost

/-- Levenshtein distance between two character lists (row-by-row DP). -/
def levDistance (s1 s2 : List Char) : Nat :=
  let fin := s2.foldl (fun (st : List Nat × Nat) c2 =>
      let i := st.2 + 1
      (i :: levRowAux c2 s1 st.1 i, i))
    (List.range (s1.length + 1), 0)
  fin.1.getLastD 0

/-- Model of `utils.levenshtein_ratio` (lines 454-492).  Python computes the ratio
in floating point; the model uses exact rationals. -/
def levenshtein_ratio (s1 s2 : String) : ℚ :=
  if s1 == "" || s2 == "" then 0
  else
    let t1 := strLower s1
    let t2 := strLower s2
    if t1 == t2 then 1
    else
      let u := if t1.length > t2.length then (t2, t1) else (t1, t2)
      let distance := levDistance u.1.toList u.2.toList
      let maxLen := max u.1.length u.2.length
      if maxLen > 0 then 1 - (distance : ℚ) / (maxLen : ℚ) else 0

/-! ## Detection passes (detection.py lines 118-312) -/

/-- A row of `submissions` as read by the pipeline: ip and user_agent are
nullable, `provided` is the submitted text, `date` a fractional-second
timestamp. -/
structure Submission where
  id : Nat
  user_id : Nat
  challenge_id : Nat
  ip : Option String
  user_agent : Option String
  type : String
  provided : String
  date : ℚ
deriving DecidableEq, Repr

/-- Python truthiness of a nullable string. -/
def pyTruthyOpt : Option String → Bool
  | none => false
  | some s => s != ""

/-- Python truthiness of a nullable integer id. -/
def pyTruthyNat : Option Nat → Bool
  | none => false
  | some n => n != 0

/-- A nullable string as an evidence value. -/
def optStr : Option String → EvVal
  | none => .null
  | some s => .s s

/-- A candidate pattern as produced by a detection pass (the dict built at
detection.py lines 157-171 / 226-240 / 294-310). -/
structure DetectionPattern where
  user_id_1 : Nat
  user_id_2 : Option Nat
  challenge_id : Nat
  detection_type : String
  confidence : ℚ
  evidence : List (String × EvVal)
deriving DecidableEq, Repr

/-- All ordered pairs `(l[i], l[j])` with `i < j` (the nested loops). -/
def pairsOf : List α → List (α × α)
  | [] => []
  | x :: xs => xs.map (fun y => (x, y)) ++ pairsOf xs

def concatMap (f : α → List β) : List α → List β
  | [] => []
  | x :: xs => f x ++ concatMap f xs

/-- Model of the `defaultdict(list)` grouping: append to the group of `k`, preserving
first-occurrence key order. -/
def groupAdd (groups : List (String × List Submission)) (k : String)
    (sub : Submission) : List (String × List Submission) :=
  match groups with
  | [] => [(k, [sub])]
  | (k', l) :: rest =>
    if k' == k then (k', l ++ [sub]) :: rest
    else (k', l) :: groupAdd rest k sub

/-- Group submissions by (truthy) IP (detection.py lines 131-134). -/
def groupByIp (subs : List Submission) : List (String × List Submission) :=
  subs.foldl (fun g sub =>
    if pyTruthyOpt sub.ip then groupAdd g (sub.ip.getD "") sub else g) []

/-- Model of `detection.detect_same_ip_pattern` (lines 118-173). -/
def detect_same_ip_pattern (subs : List Submission) : List DetectionPattern :=
  concatMap (fun g =>
    -- the `len(subs) < 2: continue` guard is subsumed: a singleton group
    -- has no pairs
    (pairsOf g.2).filterMap (fun pr =>
      let sub1 := pr.1
      let sub2 := pr.2
      if sub1.user_id == sub2.user_id then none
      else
        let time_delta := |sub2.date - sub1.date|
        if time_delta ≤ TEMPORAL_WINDOW_SECONDS then
          let detected := ["same_ip", "temporal_proximity"]
          some { user_id_1 := sub1.user_id, user_id_2 := some sub2.user_id,
                 challenge_id := sub1.challenge_id,
                 detection_type := "same_ip",
                 confidence := calculate_suspicion_confidence detected,
                 evidence := [("ip", .s g.1),
                              ("time_delta_seconds", .q time_delta),
                              ("submission_1_id", .n sub1.id),
                              ("submission_2_id", .n sub2.id),
                              ("submission_1_text", .s (sub1.provided.take 100)),
                              ("submission_2_text", .s (sub2.provided.take 100))] }
        else none))
    (groupByIp subs)

/-- Group wrong submissions by normalized (`strip().lower()`) text
(detection.py lines 195-200). -/
def groupByText (subs : List Submission) : List (String × List Submission) :=
  subs.foldl (fun g sub =>
    if sub.provided != "" then groupAdd g (strLower sub.provided.trim) sub else g) []

/-- Model of `detection.detect_duplicate_wrong_pattern` (lines 176-242). -/
def detect_duplicate_wrong_pattern (subs : List Submission) : List DetectionPattern :=
  let wrong := subs.filter (fun sub => sub.type != "correct")
  if wrong.length < 2 then []
  else
    concatMap (fun g =>
      (pairsOf g.2).filterMap (fun pr =>
        let sub1 := pr.1
        let sub2 := pr.2
        if sub1.user_id == sub2.user_id then none
        else
          let time_delta := |sub2.date - sub1.date|
          let detected :=
            if time_delta ≤ TEMPORAL_WINDOW_SECONDS then
              ["duplicate_wrong", "temporal_proximity"]
            else ["duplicate_wrong"]
          some { user_id_1 := sub1.user_id, user_id_2 := some sub2.user_id,
                 challenge_id := sub1.challenge_id,
                 detection_type := "duplicate_wrong",
                 confidence := calculate_suspicion_confidence detected,
                 evidence := [("submission_text", .s (g.1.take 200)),
                              ("time_delta_seconds", .q time_delta),
                              ("submission_1_id", .n sub1.id),
                              ("submission_2_id", .n sub2.id),
                              ("ip_1", optStr sub1.ip),
                              ("ip_2", optStr sub2.ip)] }))
      (groupByText wrong)

/-- Model of `detection.detect_similar_ua_pattern` (lines 245-312). -/
def detect_similar_ua_pattern (subs : List Submission) : List DetectionPattern :=
  let ua_subs := subs.filter (fun sub => pyTruthyOpt sub.user_agent)
  if ua_subs.length < 2 then []
  else
    (pairsOf ua_subs).filterMap (fun pr =>
      let sub1 := pr.1
      let sub2 := pr.2
      if sub1.user_id == sub2.user_id then none
      else
        let similarity := levenshtein_ratio (sub1.user_agent.getD "")
          (sub2.user_agent.getD "")
        if similarity ≥ UA_SIMILARITY_THRESHOLD then
          let time_delta := |sub2.date - sub1.date|
          let detected :=
            if time_delta ≤ TEMPORAL_WINDOW_SECONDS then
              ["similar_ua", "temporal_proximity"]
            else ["similar_ua"]
          let detected :=
            if sub1.ip == sub2.ip then detected ++ ["same_ip"] else detected
          some { user_id_1 := sub1.user_id, user_id_2 := some sub2.user_id,
                 challenge_id := sub1.challenge_id,
                 detection_type := "similar_ua",
                 confidence := calculate_suspicion_confidence detected,
                 evidence := [("ua_similarity", .q similarity),
                              ("user_agent_1", .s ((sub1.user_agent.getD "").take 200)),
                              ("user_agent_2", .s ((sub2.user_agent.getD "").take 200)),
                              ("time_delta_seconds", .q time_delta),
                              ("submission_1_id", .n sub1.id),
                              ("submission_2_id", .n sub2.id),
                              ("ip_1", optStr sub1.ip),
                              ("ip_2", optStr sub2.ip)] }
        else none)

/-! ## Consent ledger, suspicion store, verdict audit trail
(models.py lines 258-523, detection.py lines 315-404, api.py 399-491) -/

/-- A row of `phase2_user_consent` (models.py lines 258-325). -/
structure UserConsent where
  user_id : Nat
  consented : Bool
  consented_at : Option Nat
  withdrawn_at : Option Nat
deriving DecidableEq, Repr

/-- A row of `phase2_flag_sharing_suspicion` (models.py lines 93-188). -/
structure Suspicion where
  id : Nat
  user_id_1 : Nat
  user_id_2 : Option Nat
  challenge_id : Nat
  detection_type : String
  confidence_score : ℚ
  risk_level : String
  evidence : List (String × EvVal)
  admin_verdict : Option String
  reviewed_at : Option Nat
  reviewed_by : Option Nat
  created_at : Nat
deriving DecidableEq, Repr

/-- A row of `phase2_verdict_history` (models.py lines 402-471). -/
structure VerdictEntry where
  id : Nat
  suspicion_id : Nat
  verdict : String
  reviewed_by : Option Nat
  admin_ip : Option String
  notes : Option String
  created_at : Nat
deriving DecidableEq, Repr

/-- The relational store shared by the pipeline and the review API, with
autoincrement counters for the two tables whose fresh ids matter. -/
structure Phase2DB where
  consents : List UserConsent
  suspicions : List Suspicion
  nextSuspicionId : Nat
  verdict_history : List VerdictEntry
  nextVerdictId : Nat
deriving DecidableEq, Repr

def findConsent (db : Phase2DB) (user_id : Nat) : Option UserConsent :=
  db.consents.find? (fun cns => cns.user_id == user_id)

/-- Model of `UserConsent.has_consent`: `False` by default (opt-in required). -/
def has_consent (db : Phase2DB) (user_id : Nat) : Bool :=
  match findConsent db user_id with
  | some cns => cns.consented
  | none => false

/-- Model of `UserConsent.grant_consent` (models.py lines 343-370). -/
def grant_consent (now : Nat) (user_id : Nat) (db : Phase2DB) : Phase2DB :=
  match findConsent db user_id with
  | none =>
    { db with consents := db.consents ++
        [{ user_id := user_id, consented := true,
           consented_at := some now, withdrawn_at := none }] }
  | some _ =>
    { db with consents := db.consents.map (fun cns =>
        if cns.user_id == user_id then
          { cns with consented := true, consented_at := some now,
                     withdrawn_at := none }
        else cns) }

/-- Model of `UserConsent.withdraw_consent` (models.py lines 372-399). -/
def withdraw_consent (now : Nat) (user_id : Nat) (db : Phase2DB) : Phase2DB :=
  match findConsent db user_id with
  | none =>
    { db with consents := db.consents ++
        [{ user_id := user_id, consented := false,
           consented_at := none, withdrawn_at := some now }] }
  | some _ =>
    { db with consents := db.consents.map (fun cns =>
        if cns.user_id == user_id then
          { cns with consented := false, withdrawn_at := some now }
        else cns) }

/-- Model of `detection.create_suspicion_record` (lines 315-404).  Inside one
nested transaction the consent row of each involved user is read under
`SELECT ... FOR UPDATE` and checked; on any missing or inactive consent
the function returns `None` with the store untouched; otherwise evidence
is sanitized and the finding inserted.  (The second user's consent is only
checked when `user_id_2` is truthy, mirroring `if user_id_2:`.) -/
def create_suspicion_record (sha : String → String) (now : Nat)
    (db : Phase2DB) (pattern : DetectionPattern) :
    Option Suspicion × Phase2DB :=
  if !has_consent db pattern.user_id_1 then (none, db)
  else if pyTruthyNat pattern.user_id_2 &&
      !has_consent db (pattern.user_id_2.getD 0) then (none, db)
  else
    let confidence := pattern.confidence
    let risk_level := determine_risk_level confidence
    let sanitized_evidence := sanitize_evidence sha pattern.evidence
    let suspicion : Suspicion :=
      { id := db.nextSuspicionId,
        user_id_1 := pattern.user_id_1, user_id_2 := pattern.user_id_2,
        challenge_id := pattern.challenge_id,
        detection_type := pattern.detection_type,
        confidence_score := confidence, risk_level := risk_level,
        evidence := sanitized_evidence,
        admin_verdict := none, reviewed_at := none, reviewed_by := none,
        created_at := now }
    (some suspicion,
     { db with suspicions := db.suspicions ++ [suspicion],
               nextSuspicionId := db.nextSuspicionId + 1 })

/-- Model of `VerdictHistory.record_verdict` (models.py lines 473-504): a pure
insert of a fresh audit row; nothing is updated or deleted. -/
def record_verdict (now : Nat) (db : Phase2DB) (suspicion_id : Nat)
    (verdict : String) (admin_id : Nat) (admin_ip : String)
    (notes : Option String) : VerdictEntry × Phase2DB :=
  let entry : VerdictEntry :=
    { id := db.nextVerdictId, suspicion_id := suspicion_id,
      verdict := verdict, reviewed_by := some admin_id,
      admin_ip := some admin_ip, notes := notes, created_at := now }
  (entry,
   { db with verdict_history := db.verdict_history ++ [entry],
             nextVerdictId := db.nextVerdictId + 1 })

/-- Result of the review PUT endpoint. -/
inductive ReviewResult where
  | invalidVerdict : ReviewResult
  | notFound : ReviewResult
  | recorded (audit_entry_id : Nat) (reviewed_at : Nat) : ReviewResult
deriving DecidableEq, Repr

/-- Model of `api.SuspiciousActivityReview.put` (api.py lines 399-491): validate
the verdict against the fixed enum, look the finding up, append the audit
entry, then update the finding's convenience verdict/reviewer/reviewed-at
fields.  (The `SUSPICION_ENABLED` feature flag, default on, and the
admin-authentication/rate-limit decorators are outside the model.) -/
def review_put (now : Nat) (db : Phase2DB) (suspicion_id : Nat)
    (verdict : Option String) (notes : Option String) (admin_id : Nat)
    (admin_ip : String) : ReviewResult × Phase2DB :=
  match verdict with
  | none => (.invalidVerdict, db)
  | some v =>
    if !(["innocent", "suspicious", "confirmed"].contains v) then
      (.invalidVerdict, db)
    else
      match db.suspicions.find? (fun s => s.id == suspicion_id) with
      | none => (.notFound, db)
      | some _ =>
        let er := record_verdict now db suspicion_id v admin_id admin_ip notes
        let db2 :=
          { er.2 with suspicions := er.2.suspicions.map (fun s =>
              if s.id == suspicion_id then
                { s with admin_verdict := some v, reviewed_at := some now,
                         reviewed_by := some admin_id }
              else s) }
        (.recorded er.1.id now, db2)

/-! ## Claim C3: consent-gated suspicion creation -/

lemma find?_append_of_none {α : Type} {p : α → Bool} {l₁ l₂ : List α}
    (h : l₁.find? p = none) : (l₁ ++ l₂).find? p = l₂.find? p := by
  induction l₁ with
  | nil => rfl
  | cons a t ih =>
    cases hp : p a with
    | true => simp [List.find?, hp] at h
    | false =>
      simp only [List.find?, hp] at h
      rw [List.cons_append]
      simp only [List.find?, hp]
      exact ih h

/-- Every consent row found for `uid` in the withdrawn-mapped list is
inactive. -/
lemma consented_false_after_map (l : List UserConsent) (uid now : Nat) :
    ∀ c, (l.map (fun cns => if cns.user_id == uid then
        { cns with consented := false, withdrawn_at := some now }
      else cns)).find? (fun cns => cns.user_id == uid) = some c →
      c.consented = false := by
  intro c h
  have hpc := List.find?_some h
  simp only [] at hpc
  have hmem := List.mem_of_find?_eq_some h
  obtain ⟨cns, _hcns, hc⟩ := List.mem_map.mp hmem
  by_cases hu : (cns.user_id == uid) = true
  · rw [if_pos hu] at hc
    rw [← hc]
  · rw [if_neg hu] at hc
    rw [← hc] at hpc
    exact absurd hpc hu

lemma has_consent_false_of_find {db : Phase2DB} {uid : Nat}
    (h : ∀ c, findConsent db uid = some c → c.consented = false) :
    has_consent db uid = false := by
  unfold has_consent
  cases hf : findConsent db uid with
  | none => rfl
  | some c => exact h c hf

/-- After `withdraw_consent`, the user has no active consent. -/
lemma has_consent_withdraw (now uid : Nat) (db : Phase2DB) :
    has_consent (withdraw_consent now uid db) uid = false := by
  apply has_consent_false_of_find
  intro c hf
  unfold withdraw_consent findConsent at hf
  cases hfind : db.consents.find? (fun cns => cns.user_id == uid) with
  | none =>
    simp only [hfind] at hf
    rw [find?_append_of_none hfind] at hf
    simp [List.find?] at hf
    rw [← hf]
  | some c₀ =>
    simp only [hfind] at hf
    exact consented_false_after_map db.consents uid now c hf

/-- A pattern skipped for lack of consent changes nothing. -/
lemma create_suspicion_no_consent {sha : String → String} {now : Nat}
    {db : Phase2DB} {p : DetectionPattern}
    (h : has_consent db p.user_id_1 = false ∨
      (pyTruthyNat p.user_id_2 = true ∧
       has_consent db (p.user_id_2.getD 0) = false)) :
    create_suspicion_record sha now db p = (none, db) := by
  unfold create_suspicion_record
  rcases h with h1 | ⟨h2a, h2b⟩
  · rw [h1]
    rfl
  · cases hc1 : has_consent db p.user_id_1 with
    | false => rfl
    | true =>
      rw [h2a, h2b]
      rfl

/-- C3. Suspicion creation is consent-gated.  First conjunct: if any
involved user lacks an active consent record — no record or
`consented = false` for `user_id_1`, or for a present (truthy) `user_id_2`
— then `create_suspicion_record` creates no finding and leaves the store
unchanged.  Second conjunct: a consent withdrawal completed before the
creation attempt begins guarantees that a subsequent creation attempt for
any pattern involving that user creates nothing and leaves the store
(including the withdrawal) unchanged. -/
theorem suspicion_consent_gated :
    (∀ (sha : String → String) (now : Nat) (db : Phase2DB)
        (p : DetectionPattern),
        (has_consent db p.user_id_1 = false ∨
         (pyTruthyNat p.user_id_2 = true ∧
          has_consent db (p.user_id_2.getD 0) = false)) →
        create_suspicion_record sha now db p = (none, db))
    ∧
    (∀ (sha : String → String) (tw tc : Nat) (uid : Nat) (db : Phase2DB)
        (p : DetectionPattern),
        (p.user_id_1 = uid ∨ (p.user_id_2 = some uid ∧ 0 < uid)) →
        create_suspicion_record sha tc (withdraw_consent tw uid db) p
          = (none, withdraw_consent tw uid db)) := by
  constructor
  · intro sha now db p h
    exact create_suspicion_no_consent h
  · intro sha tw tc uid db p hinv
    apply create_suspicion_no_consent
    rcases hinv with h1 | ⟨h2, hpos⟩
    · left
      rw [h1]
      exact has_consent_withdraw tw uid db
    · right
      rw [h2]
      refine ⟨by simp [pyTruthyNat]; omega, ?_⟩
      simp only [Option.getD_some]
      exact has_consent_withdraw tw uid db

/-- The empty store. -/
def emptyDB : Phase2DB :=
  { consents := [], suspicions := [], nextSuspicionId := 0,
    verdict_history := [], nextVerdictId := 0 }

/-- A candidate same-ip pattern between users 8 and 9. -/
def pat89 : DetectionPattern :=
  { user_id_1 := 8, user_id_2 := some 9, challenge_id := 3,
    detection_type := "same_ip", confidence := 1 / 2, evidence := [] }

/-- A candidate pattern involving only user 8. -/
def pat8 : DetectionPattern :=
  { user_id_1 := 8, user_id_2 := none, challenge_id := 3,
    detection_type := "same_ip", confidence := 1 / 2, evidence := [] }

/-- Witness for C3: user 8 withdraws consent, then a same-ip pattern
involving users 8 and 9 is skipped and the store is unchanged; likewise a
pattern whose first user has no consent record at all is skipped. -/
theorem suspicion_consent_gated_witness :
    create_suspicion_record (fun s => s ++ "h") 20
        (withdraw_consent 10 8 emptyDB) pat89
      = (none, withdraw_consent 10 8 emptyDB) ∧
    create_suspicion_record (fun s => s ++ "h") 20 emptyDB pat8
      = (none, emptyDB) :=
  ⟨suspicion_consent_gated.2 (fun s => s ++ "h") 10 20 8 emptyDB pat89
      (Or.inl rfl),
   suspicion_consent_gated.1 (fun s => s ++ "h") 20 emptyDB pat8
      (Or.inl rfl)⟩

/-! ## Claim C9: append-only verdict audit trail -/

/-- The convenience-field update applied to the reviewed finding. -/
def applyVerdict (sid : Nat) (v : String) (now aid : Nat)
    (s : Suspicion) : Suspicion :=
  if s.id == sid then
    { s with admin_verdict := some v, reviewed_at := some now,
             reviewed_by := some aid }
  else s

/-- The audit entry created by one verdict submission. -/
def mkVerdictEntry (eid sid : Nat) (v : String) (aid : Nat) (aip : String)
    (notes : Option String) (now : Nat) : VerdictEntry :=
  { id := eid, suspicion_id := sid, verdict := v, reviewed_by := some aid,
    admin_ip := some aip, notes := notes, created_at := now }

/-- Characterization of one successful verdict submission. -/
lemma review_put_ok (now : Nat) (db : Phase2DB) (sid : Nat) (v : String)
    (notes : Option String) (aid : Nat) (aip : String)
    (hval : (["innocent", "suspicious", "confirmed"].contains v) = true)
    (hfound : (db.suspicions.find? (fun s => s.id == sid)).isSome = true) :
    review_put now db sid (some v) notes aid aip
      = (.recorded db.nextVerdictId now,
         { consents := db.consents,
           suspicions := db.suspicions.map (applyVerdict sid v now aid),
           nextSuspicionId := db.nextSuspicionId,
           verdict_history := db.verdict_history ++
             [mkVerdictEntry db.nextVerdictId sid v aid aip notes now],
           nextVerdictId := db.nextVerdictId + 1 }) := by
  unfold review_put record_verdict
  obtain ⟨s₀, hfind⟩ := Option.isSome_iff_exists.mp hfound
  simp only [hval, Bool.not_true, Bool.false_eq_true, if_false, hfind]
  rfl

/-- Lookup by id commutes with the convenience-field update. -/
lemma find_map_applyVerdict (l : List Suspicion) (sid : Nat) (v : String)
    (now aid : Nat) :
    ((l.map (applyVerdict sid v now aid)).find? (fun s => s.id == sid)).isSome
      = (l.find? (fun s => s.id == sid)).isSome := by
  induction l with
  | nil => rfl
  | cons a t ih =>
    by_cases h : (a.id == sid) = true
    · have hupd : (applyVerdict sid v now aid a).id = a.id := by
        unfold applyVerdict
        rw [if_pos h]
      simp [List.find?, hupd, h]
    · have hf : (a.id == sid) = false := Bool.eq_false_iff.mpr h
      have hupd : applyVerdict sid v now aid a = a := by
        unfold applyVerdict
        rw [if_neg h]
      simp only [List.map_cons, hupd, List.find?, hf]
      exact ih

/-- Every finding with the reviewed id carries the reviewed verdict after
the update. -/
lemma mem_map_applyVerdict (l : List Suspicion) (sid : Nat) (v : String)
    (now aid : Nat) :
    ∀ s ∈ l.map (applyVerdict sid v now aid), s.id = sid →
      s.admin_verdict = some v := by
  intro s hs hid
  obtain ⟨s', _hs', rfl⟩ := List.mem_map.mp hs
  unfold applyVerdict at hid ⊢
  by_cases h : (s'.id == sid) = true
  · rw [if_pos h]
  · rw [if_neg h] at hid ⊢
    exact absurd (beq_iff_eq.mpr hid) h

/-- C9. Every verdict submission appends a new `VerdictAuditEntry`
rather than updating any existing one: submitting two different valid
verdicts for the same finding in sequence leaves every pre-existing audit
row untouched and appends exactly two rows with distinct identifiers and
strictly increasing timestamps, carrying the first and second verdict
respectively; afterwards, every finding with the reviewed id — in
particular the reviewed finding — has its convenience verdict field equal
to the most recently submitted verdict only. -/
theorem verdict_history_append_only (db : Phase2DB) (sid : Nat)
    (v1 v2 : String) (t1 t2 a1 a2 : Nat) (ip1 ip2 : String)
    (n1 n2 : Option String)
    (hv1 : (["innocent", "suspicious", "confirmed"].contains v1) = true)
    (hv2 : (["innocent", "suspicious", "confirmed"].contains v2) = true)
    (_hne : v1 ≠ v2) (ht : t1 < t2)
    (hfound : (db.suspicions.find? (fun s => s.id == sid)).isSome = true) :
    ∃ e1 e2 : VerdictEntry,
      (review_put t2 (review_put t1 db sid (some v1) n1 a1 ip1).2 sid
          (some v2) n2 a2 ip2).2.verdict_history
        = db.verdict_history ++ [e1, e2] ∧
      e1.id ≠ e2.id ∧
      e1.created_at < e2.created_at ∧
      e1.verdict = v1 ∧ e2.verdict = v2 ∧
      ∀ s ∈ (review_put t2 (review_put t1 db sid (some v1) n1 a1 ip1).2 sid
          (some v2) n2 a2 ip2).2.suspicions,
        s.id = sid → s.admin_verdict = some v2 := by
  rw [review_put_ok t1 db sid v1 n1 a1 ip1 hv1 hfound]
  have hfound2 : ((db.suspicions.map (applyVerdict sid v1 t1 a1)).find?
      (fun s => s.id == sid)).isSome = true := by
    rw [find_map_applyVerdict]
    exact hfound
  rw [review_put_ok t2 _ sid v2 n2 a2 ip2 hv2 hfound2]
  refine ⟨mkVerdictEntry db.nextVerdictId sid v1 a1 ip1 n1 t1,
    mkVerdictEntry (db.nextVerdictId + 1) sid v2 a2 ip2 n2 t2, ?_, ?_, ?_, rfl, rfl, ?_⟩
  · simp [mkVerdictEntry, List.append_assoc]
  · simp [mkVerdictEntry]
  · simpa [mkVerdictEntry] using ht
  · intro s hs hid
    exact mem_map_applyVerdict _ sid v2 t2 a2 s hs hid

/-- A pending finding with id 0 for review witnesses. -/
def susp0 : Suspicion :=
  { id := 0, user_id_1 := 8, user_id_2 := some 9, challenge_id := 3,
    detection_type := "same_ip", confidence_score := 1 / 2,
    risk_level := "MEDIUM", evidence := [], admin_verdict := none,
    reviewed_at := none, reviewed_by := none, created_at := 5 }

/-- A store holding only that finding. -/
def reviewDB : Phase2DB :=
  { consents := [], suspicions := [susp0], nextSuspicionId := 1,
    verdict_history := [], nextVerdictId := 0 }

/-- Witness for C9: reviewing finding 0 with "innocent" at time 10 and
then "confirmed" at time 20 appends two distinct audit rows and leaves the
convenience field at "confirmed". -/
theorem verdict_history_append_only_witness :
    ∃ e1 e2 : VerdictEntry,
      (review_put 20 (review_put 10 reviewDB 0 (some "innocent") none 1 "a").2 0
          (some "confirmed") none 2 "b").2.verdict_history
        = reviewDB.verdict_history ++ [e1, e2] ∧
      e1.id ≠ e2.id ∧
      e1.created_at < e2.created_at ∧
      e1.verdict = "innocent" ∧ e2.verdict = "confirmed" ∧
      ∀ s ∈ (review_put 20 (review_put 10 reviewDB 0 (some "innocent") none 1 "a").2 0
          (some "confirmed") none 2 "b").2.suspicions,
        s.id = 0 → s.admin_verdict = some "confirmed" :=
  verdict_history_append_only reviewDB 0 "innocent" "confirmed" 10 20 1 2 "a" "b"
    none none (by decide) (by decide) (by decide) (by decide) (by decide)

/-! ## Claim C4: sanitized evidence carries no raw PII -/

/-- Keys the sanitizer transforms: IP-marked keys outside the
already-hashed exclusion list, user-agent keys, and submission-text keys.
Only such keys may carry raw string values in the detection passes'
evidence. -/
def keyMarked (key : String) : Prop :=
  (pyIn "ip" (strLower key) = true ∧ key ≠ "ip_hash" ∧ key ≠ "ip_1_hash" ∧
    key ≠ "ip_2_hash") ∨
  pyIn "user_agent" (strLower key) = true ∨
  (pyIn "submission" (strLower key) = true ∧ pyIn "text" (strLower key) = true)

instance (key : String) : Decidable (keyMarked key) := by
  unfold keyMarked
  infer_instance

/-- An evidence entry the sanitizer renders PII-free: any string value
sits under a marked key. -/
def SanitizableEntry (kv : String × EvVal) : Prop :=
  ∀ str, kv.2 = .s str → keyMarked kv.1

/-- A value free of raw PII: any string it holds is empty, the redaction
marker, a truncated hash, or a generalized browser-on-OS form. -/
def PiiFree (sha : String → String) : EvVal → Prop
  | .s str => str = "" ∨ str = "[REDACTED]" ∨
      (∃ ip, str = (sha ip).take 16) ∨ (∃ ua, str = generalize_user_agent ua)
  | .n _ => True
  | .q _ => True
  | .null => True

/-- Values in a `dictSet` result come from the new entry or the old list. -/
lemma dictSet_val (l : List (String × EvVal)) (k : String) (v : EvVal) :
    ∀ kv ∈ dictSet l k v, kv.2 = v ∨ ∃ kv' ∈ l, kv.2 = kv'.2 := by
  induction l with
  | nil =>
    intro kv hkv
    simp only [dictSet, List.mem_singleton] at hkv
    left
    rw [hkv]
  | cons a t ih =>
    obtain ⟨k', v'⟩ := a
    intro kv hkv
    by_cases h : (k' == k) = true
    · simp only [dictSet, if_pos h] at hkv
      rcases List.mem_cons.mp hkv with rfl | hkv
      · left; rfl
      · right; exact ⟨kv, List.mem_cons_of_mem _ hkv, rfl⟩
    · simp only [dictSet, if_neg h] at hkv
      rcases List.mem_cons.mp hkv with rfl | hkv
      · right; exact ⟨(k', v'), List.mem_cons_self _ _, rfl⟩
      · rcases ih kv hkv with hv | ⟨kv', hkv', hv⟩
        · left; exact hv
        · right; exact ⟨kv', List.mem_cons_of_mem _ hkv', hv⟩

/-- One sanitizer step keeps every stored value PII-free, provided the
incoming entry is sanitizable. -/
lemma sanitizeStep_piiFree {sha : String → String}
    {acc : List (String × EvVal)} {kv : String × EvVal}
    (hacc : ∀ kv' ∈ acc, PiiFree sha kv'.2) (hkv : SanitizableEntry kv) :
    ∀ kv' ∈ sanitizeStep sha acc kv, PiiFree sha kv'.2 := by
  intro kv' hkv'
  unfold sanitizeStep at hkv'
  by_cases h1 : (pyIn "ip" (strLower kv.1) && kv.2.truthy &&
      !(kv.1 == "ip_hash" || kv.1 == "ip_1_hash" || kv.1 == "ip_2_hash")) = true
  · rw [if_pos h1] at hkv'
    rcases dictSet_val _ _ _ kv' hkv' with hv | ⟨kv'', hkv'', hv⟩
    · rw [hv]
      cases hh : hash_ip sha kv.2.pyStr with
      | none => trivial
      | some h =>
        unfold hash_ip at hh
        by_cases hip : (kv.2.pyStr == "") = true
        · rw [if_pos hip] at hh
          cases hh
        · rw [if_neg hip] at hh
          simp only [PiiFree]
          exact Or.inr (Or.inr (Or.inl ⟨kv.2.pyStr, (Option.some.inj hh).symm⟩))
    · rw [hv]; exact hacc kv'' hkv''
  · rw [if_neg h1] at hkv'
    by_cases h2 : (pyIn "user_agent" (strLower kv.1) && kv.2.truthy) = true
    · rw [if_pos h2] at hkv'
      rcases dictSet_val _ _ _ kv' hkv' with hv | ⟨kv'', hkv'', hv⟩
      · rw [hv]
        simp only [PiiFree]
        exact Or.inr (Or.inr (Or.inr ⟨kv.2.pyStr, rfl⟩))
      · rw [hv]; exact hacc kv'' hkv''
    · rw [if_neg h2] at hkv'
      by_cases h3 : (pyIn "submission" (strLower kv.1) && pyIn "text" (strLower kv.1)) = true
      · rw [if_pos h3] at hkv'
        rcases dictSet_val _ _ _ kv' hkv' with hv | ⟨kv'', hkv'', hv⟩
        · rw [hv]
          simp only [PiiFree]
          exact Or.inr (Or.inl trivial)
        · rw [hv]; exact hacc kv'' hkv''
      · rw [if_neg h3] at hkv'
        rcases dictSet_val _ _ _ kv' hkv' with hv | ⟨kv'', hkv'', hv⟩
        · rw [hv]
          cases hval : kv.2 with
          | n v => trivial
          | q v => trivial
          | null => trivial
          | s str =>
            have hk := hkv str hval
            have h1f := Bool.eq_false_iff.mpr h1
            have h2f := Bool.eq_false_iff.mpr h2
            simp only [PiiFree]
            rcases hk with ⟨hip, hx1, hx2, hx3⟩ | hua | ⟨hsub, htext⟩
            · have hexcl : (kv.1 == "ip_hash" || kv.1 == "ip_1_hash" ||
                  kv.1 == "ip_2_hash") = false := by
                simp [hx1, hx2, hx3]
              simp only [hip, hexcl, hval, EvVal.truthy, Bool.true_and,
                Bool.not_false, Bool.and_true] at h1f
              left
              simpa using h1f
            · simp only [hua, hval, EvVal.truthy, Bool.true_and] at h2f
              left
              simpa using h2f
            · exact absurd (by rw [hsub, htext]; rfl) h3
        · rw [hv]; exact hacc kv'' hkv''

lemma sanitize_fold_piiFree (sha : String → String) :
    ∀ (ev acc : List (String × EvVal)),
      (∀ kv ∈ ev, SanitizableEntry kv) →
      (∀ kv ∈ acc, PiiFree sha kv.2) →
      ∀ kv ∈ ev.foldl (sanitizeStep sha) acc, PiiFree sha kv.2 := by
  intro ev
  induction ev with
  | nil => intro acc _ hacc kv hkv; exact hacc kv hkv
  | cons e es ih =>
    intro acc hin hacc kv hkv
    rw [List.foldl_cons] at hkv
    exact ih (sanitizeStep sha acc e)
      (fun kv' h' => hin kv' (List.mem_cons_of_mem _ h'))
      (sanitizeStep_piiFree hacc (hin e (List.mem_cons_self _ _))) kv hkv

/-- Sanitizing sanitizable evidence yields only PII-free values. -/
lemma sanitize_evidence_piiFree (sha : String → String)
    (ev : List (String × EvVal)) (hin : ∀ kv ∈ ev, SanitizableEntry kv) :
    ∀ kv ∈ sanitize_evidence sha ev, PiiFree sha kv.2 :=
  sanitize_fold_piiFree sha ev [] hin (fun kv h => absurd h (List.not_mem_nil kv))

lemma mem_concatMap {α β : Type} {f : α → List β} {b : β} :
    ∀ {l : List α}, b ∈ concatMap f l ↔ ∃ a ∈ l, b ∈ f a := by
  intro l
  induction l with
  | nil => simp [concatMap]
  | cons x xs ih => simp [concatMap, ih]

/-- Every entry of a same-ip pattern's evidence is sanitizable. -/
lemma same_ip_sanitizable {subs : List Submission} {p : DetectionPattern}
    (hp : p ∈ detect_same_ip_pattern subs) :
    ∀ kv ∈ p.evidence, SanitizableEntry kv := by
  unfold detect_same_ip_pattern at hp
  rw [mem_concatMap] at hp
  obtain ⟨g, _hg, hpg⟩ := hp
  rw [List.mem_filterMap] at hpg
  obtain ⟨pr, _hpr, hf⟩ := hpg
  simp only at hf
  by_cases h1 : (pr.1.user_id == pr.2.user_id) = true
  · rw [if_pos h1] at hf
    cases hf
  · rw [if_neg h1] at hf
    by_cases h2 : |pr.2.date - pr.1.date| ≤ TEMPORAL_WINDOW_SECONDS
    · rw [if_pos h2] at hf
      obtain rfl := Option.some.inj hf
      intro kv hkv
      simp only [List.mem_cons, List.not_mem_nil, or_false] at hkv
      rcases hkv with rfl | rfl | rfl | rfl | rfl | rfl
      · exact fun _ _ => (by decide : keyMarked "ip")
      · exact fun str h => nomatch h
      · exact fun str h => nomatch h
      · exact fun str h => nomatch h
      · exact fun _ _ => (by decide : keyMarked "submission_1_text")
      · exact fun _ _ => (by decide : keyMarked "submission_2_text")
    · rw [if_neg h2] at hf
      cases hf

/-- Every entry of a duplicate-wrong pattern's evidence is sanitizable. -/
lemma dup_wrong_sanitizable {subs : List Submission} {p : DetectionPattern}
    (hp : p ∈ detect_duplicate_wrong_pattern subs) :
    ∀ kv ∈ p.evidence, SanitizableEntry kv := by
  unfold detect_duplicate_wrong_pattern at hp
  by_cases hlen : (subs.filter (fun sub => sub.type != "correct")).length < 2
  · rw [if_pos hlen] at hp
    cases hp
  · rw [if_neg hlen] at hp
    rw [mem_concatMap] at hp
    obtain ⟨g, _hg, hpg⟩ := hp
    rw [List.mem_filterMap] at hpg
    obtain ⟨pr, _hpr, hf⟩ := hpg
    simp only at hf
    by_cases h1 : (pr.1.user_id == pr.2.user_id) = true
    · rw [if_pos h1] at hf
      cases hf
    · rw [if_neg h1] at hf
      obtain rfl := Option.some.inj hf
      intro kv hkv
      simp only [List.mem_cons, List.not_mem_nil, or_false] at hkv
      rcases hkv with rfl | rfl | rfl | rfl | rfl | rfl
      · exact fun _ _ => (by decide : keyMarked "submission_text")
      · exact fun str h => nomatch h
      · exact fun str h => nomatch h
      · exact fun str h => nomatch h
      · exact fun _ _ => (by decide : keyMarked "ip_1")
      · exact fun _ _ => (by decide : keyMarked "ip_2")

/-- Every entry of a similar-user-agent pattern's evidence is
sanitizable. -/
lemma similar_ua_sanitizable {subs : List Submission} {p : DetectionPattern}
    (hp : p ∈ detect_similar_ua_pattern subs) :
    ∀ kv ∈ p.evidence, SanitizableEntry kv := by
  unfold detect_similar_ua_pattern at hp
  by_cases hlen : (subs.filter (fun sub => pyTruthyOpt sub.user_agent)).length < 2
  · rw [if_pos hlen] at hp
    cases hp
  · rw [if_neg hlen] at hp
    rw [List.mem_filterMap] at hp
    obtain ⟨pr, _hpr, hf⟩ := hp
    simp only at hf
    by_cases h1 : (pr.1.user_id == pr.2.user_id) = true
    · rw [if_pos h1] at hf
      cases hf
    · rw [if_neg h1] at hf
      by_cases h2 : levenshtein_ratio (pr.1.user_agent.getD "")
          (pr.2.user_agent.getD "") ≥ UA_SIMILARITY_THRESHOLD
      · rw [if_pos h2] at hf
        obtain rfl := Option.some.inj hf
        intro kv hkv
        simp only [List.mem_cons, List.not_mem_nil, or_false] at hkv
        rcases hkv with rfl | rfl | rfl | rfl | rfl | rfl | rfl | rfl
        · exact fun str h => nomatch h
        · exact fun _ _ => (by decide : keyMarked "user_agent_1")
        · exact fun _ _ => (by decide : keyMarked "user_agent_2")
        · exact fun str h => nomatch h
        · exact fun str h => nomatch h
        · exact fun str h => nomatch h
        · exact fun _ _ => (by decide : keyMarked "ip_1")
        · exact fun _ _ => (by decide : keyMarked "ip_2")
      · rw [if_neg h2] at hf
        cases hf

/-- C4. No finding persisted by the suspicion pipeline carries raw
PII.  First conjunct: for every pattern produced by any of the three
detection passes, every value of its sanitized evidence is PII-free —
each string it stores is the redaction marker, a truncated one-way hash,
a generalized browser-on-OS form, or empty: never a raw IP address, a raw
user-agent string, or raw submission text.  Second conjunct: whatever
`create_suspicion_record` persists stores exactly the sanitized evidence,
never the raw evidence. -/
theorem evidence_pii_sanitized :
    (∀ (sha : String → String) (subs : List Submission)
        (p : DetectionPattern),
        p ∈ detect_same_ip_pattern subs ++ detect_duplicate_wrong_pattern subs
            ++ detect_similar_ua_pattern subs →
        ∀ kv ∈ sanitize_evidence sha p.evidence, PiiFree sha kv.2)
    ∧
    (∀ (sha : String → String) (now : Nat) (db : Phase2DB)
        (p : DetectionPattern) (susp : Suspicion) (db' : Phase2DB),
        create_suspicion_record sha now db p = (some susp, db') →
        susp.evidence = sanitize_evidence sha p.evidence) := by
  constructor
  · intro sha subs p hp
    apply sanitize_evidence_piiFree
    rcases List.mem_append.mp hp with hp12 | hp3
    · rcases List.mem_append.mp hp12 with hp1 | hp2
      · exact same_ip_sanitizable hp1
      · exact dup_wrong_sanitizable hp2
    · exact similar_ua_sanitizable hp3
  · intro sha now db p susp db' h
    unfold create_suspicion_record at h
    by_cases h1 : (!has_consent db p.user_id_1) = true
    · rw [if_pos h1] at h
      simp at h
    · rw [if_neg h1] at h
      by_cases h2 : (pyTruthyNat p.user_id_2 &&
          !has_consent db (p.user_id_2.getD 0)) = true
      · rw [if_pos h2] at h
        simp at h
      · rw [if_neg h2] at h
        injection h with ha _hb
        injection ha with ha'
        rw [← ha']

/-- Two wrong submissions from one IP thirty seconds apart. -/
def c4sub1 : Submission :=
  { id := 1, user_id := 1, challenge_id := 3, ip := some "1.2.3.4",
    user_agent := none, type := "incorrect", provided := "flagA", date := 0 }

def c4sub2 : Submission :=
  { id := 2, user_id := 2, challenge_id := 3, ip := some "1.2.3.4",
    user_agent := none, type := "incorrect", provided := "flagB", date := 30 }

def c4subs : List Submission := [c4sub1, c4sub2]

/-- The same-ip pattern those submissions produce. -/
def c4pat : DetectionPattern :=
  { user_id_1 := 1, user_id_2 := some 2, challenge_id := 3,
    detection_type := "same_ip",
    confidence := calculate_suspicion_confidence ["same_ip", "temporal_proximity"],
    evidence := [("ip", .s "1.2.3.4"),
   ("time_delta_seconds", .q (|(30 : ℚ) - 0|)),
   ("submission_1_id", .n 1), ("submission_2_id", .n 2),
   ("submission_1_text", .s ("flagA".take 100)),
   ("submission_2_text", .s ("flagB".take 100))] }

lemma c4pat_mem : c4pat ∈ detect_same_ip_pattern c4subs := by
  have h60 : |c4sub2.date - c4sub1.date| ≤ TEMPORAL_WINDOW_SECONDS := by
    norm_num [c4sub1, c4sub2, TEMPORAL_WINDOW_SECONDS]
  have hne : ¬((c4sub1.user_id == c4sub2.user_id) = true) := by decide
  unfold detect_same_ip_pattern
  rw [show groupByIp c4subs = [("1.2.3.4", c4subs)] from rfl]
  simp only [concatMap]
  rw [show pairsOf c4subs = [(c4sub1, c4sub2)] from rfl]
  rw [List.filterMap_cons]
  simp only [if_neg hne, if_pos h60, List.filterMap_nil, List.append_nil]
  exact List.mem_singleton.mpr rfl

/-- A concrete stand-in for the SHA256 hex digest. -/
def c4sha : String → String := fun _ => "abcdef0123456789"

/-- A store in which users 1 and 2 have granted consent. -/
def c4db : Phase2DB :=
  { consents := [{ user_id := 1, consented := true, consented_at := some 0,
                   withdrawn_at := none },
   { user_id := 2, consented := true, consented_at := some 0,
     withdrawn_at := none }],
    suspicions := [], nextSuspicionId := 0, verdict_history := [],
    nextVerdictId := 0 }

/-- The finding created from `c4pat` in `c4db` at time 7. -/
def c4susp : Suspicion :=
  { id := 0, user_id_1 := c4pat.user_id_1, user_id_2 := c4pat.user_id_2,
    challenge_id := c4pat.challenge_id,
    detection_type := c4pat.detection_type,
    confidence_score := c4pat.confidence,
    risk_level := determine_risk_level c4pat.confidence,
    evidence := sanitize_evidence c4sha c4pat.evidence,
    admin_verdict := none, reviewed_at := none, reviewed_by := none,
    created_at := 7 }

/-- The store after that creation. -/
def c4db' : Phase2DB :=
  { consents := c4db.consents, suspicions := c4db.suspicions ++ [c4susp],
    nextSuspicionId := c4db.nextSuspicionId + 1,
    verdict_history := c4db.verdict_history,
    nextVerdictId := c4db.nextVerdictId }

/-- Witness for C4 at the concrete scenario: the pattern is produced by
the passes, its sanitized evidence is PII-free, and the persisted finding
stores exactly the sanitized evidence. -/
theorem evidence_pii_sanitized_witness :
    c4pat ∈ detect_same_ip_pattern c4subs ++
      detect_duplicate_wrong_pattern c4subs ++
      detect_similar_ua_pattern c4subs ∧
    (∀ kv ∈ sanitize_evidence c4sha c4pat.evidence, PiiFree c4sha kv.2) ∧
    c4susp.evidence = sanitize_evidence c4sha c4pat.evidence :=
  ⟨List.mem_append_left _ (List.mem_append_left _ c4pat_mem),
   evidence_pii_sanitized.1 c4sha c4subs c4pat
     (List.mem_append_left _ (List.mem_append_left _ c4pat_mem)),
   evidence_pii_sanitized.2 c4sha 7 c4db c4pat c4susp c4db' rfl⟩

end Phase2
